import Mathlib

/-!
# GoHexIO: verification of the record codec and coalescing engine

Shallow embedding of the two codec families of the GoHexIO repository:
the Intel-Hex style 16-bit-address family (`ihex`, from `intel/read.go`,
`intel/write.go` and the `part_000`/`part_001` drafts) and the Motorola
S-record style variable-address-width family (`srec`, from `srec/read.go`,
`srec/checksum.go` and the `part_004`/`part_005` writer).

Bytes are modelled as `Nat` values below 256, addresses as `Nat` reduced
modulo `2^16` or `2^32` exactly where the Go code's fixed-width integer
arithmetic wraps.  Text lines are `List Char`.  Fallible operations return
explicit result types; a Go runtime panic is modelled by a dedicated
`crash` result constructor.
-/

/-- A line of hex-file text, without its trailing newline. -/
abbrev Line := List Char

/-- Value of one hexadecimal digit, accepting the digit sets Go's
`encoding/hex` and `strconv.ParseUint(_, 16, _)` accept: `0-9`, `a-f`, `A-F`. -/
def hexVal (c : Char) : Option Nat :=
  if 48 ≤ c.toNat ∧ c.toNat ≤ 57 then some (c.toNat - 48)
  else if 97 ≤ c.toNat ∧ c.toNat ≤ 102 then some (c.toNat - 87)
  else if 65 ≤ c.toNat ∧ c.toNat ≤ 70 then some (c.toNat - 55)
  else none

/-- Embedding of Go `hex.DecodeString`: decodes hex-digit pairs into bytes,
failing on an odd number of digits or on any non-hex character. -/
def hexDecode : List Char → Option (List Nat)
  | [] => some []
  | [_] => none
  | c1 :: c2 :: rest =>
    match hexVal c1, hexVal c2, hexDecode rest with
    | some h, some l, some bs => some ((h * 16 + l) :: bs)
    | _, _, _ => none

/-- Lower-case hex digit character for a value below 16 (Go `hex.EncodeToString`). -/
def toHexLower (n : Nat) : Char :=
  Char.ofNat (if n < 10 then 48 + n else 87 + n)

/-- Upper-case hex digit character for a value below 16
(Go `strings.ToUpper(hex.EncodeToString(...))`). -/
def toHexUpper (n : Nat) : Char :=
  Char.ofNat (if n < 10 then 48 + n else 55 + n)

/-- Embedding of Go `hex.EncodeToString` (lower case), two characters per byte. -/
def hexEncode : List Nat → List Char
  | [] => []
  | b :: rest => toHexLower (b / 16 % 16) :: toHexLower (b % 16) :: hexEncode rest

/-- Upper-case variant used by the intel-family writer. -/
def hexEncodeUpper : List Nat → List Char
  | [] => []
  | b :: rest => toHexUpper (b / 16 % 16) :: toHexUpper (b % 16) :: hexEncodeUpper rest

/-- Accumulating core of Go `strconv.ParseUint(s, 16, _)` over hex characters. -/
def parseHexAcc : Nat → List Char → Option Nat
  | acc, [] => some acc
  | acc, c :: rest =>
    match hexVal c with
    | some d => parseHexAcc (acc * 16 + d) rest
    | none => none

/-- Embedding of Go `strconv.ParseUint(s, 16, bits)`: fails on an empty string,
on any non-hex character, and on overflow of the requested bit size. -/
def parseUintHex (cs : List Char) (bits : Nat) : Option Nat :=
  if cs = [] then none
  else
    match parseHexAcc 0 cs with
    | some v => if v < 2 ^ bits then some v else none
    | none => none

/-- Big-endian value of a byte sequence. -/
def beVal (bs : List Nat) : Nat := bs.foldl (fun a b => a * 256 + b) 0

namespace ihex

/-- Embedding of `calcChecksum` from `intel/write.go` (two's-complement of the
byte sum): `byte(-cs)` for the wrapped byte sum `cs`. -/
def calcChecksum (buf : List Nat) : Nat := (256 - buf.sum % 256) % 256

/-- Record of the 16-bit-address family (`HexRec` of `intel/read.go`).
`RecordType` is the raw record-type byte (`RecTyp`); `Data` the payload. -/
structure HexRec where
  Address : Nat
  RecordType : Nat
  Data : List Nat
deriving DecidableEq, Repr

/-- The `Data` record type constant (00). -/
def DataTyp : Nat := 0

/-- The `EndOfFile` record type constant (01). -/
def EndOfFileTyp : Nat := 1

/-- Decode errors of the intel-family decoder, one constructor per
`errors.New`/`fmt.Errorf` site of `decodeRecord` in `intel/read.go`. -/
inductive DecErr where
  /-- "Empty record detected" -/
  | empty
  /-- "Unable to decode hex record: ..." -/
  | malformedHex
  /-- "Bad checksum detected" -/
  | checksum
  /-- "Bad field #i in hex record: ..." -/
  | badField (i : Nat)
  /-- "Bad data field in hex record: ..." -/
  | badData
deriving DecidableEq, Repr

/-- Result of the intel-family decoder; `crash` models a Go runtime panic
(there is no `recover` in `intel/read.go`). -/
inductive DecRes where
  | ok (rec : HexRec)
  | err (e : DecErr)
  | crash
deriving DecidableEq, Repr

/-- Field-parsing phase of `decodeRecord` (`binary.Read` of length, address and
type, then the payload), applied to the checksum-stripped binary body.  Reading
past the end of the body yields the corresponding "Bad field"/"Bad data field"
error; excess bytes after the declared payload are silently ignored, exactly as
`bytes.NewReader`/`binary.Read` behave. -/
def decodeFields (body : List Nat) : DecRes :=
  if body.length < 1 then .err (.badField 1)
  else
    let recLen := body.getD 0 0
    if body.length < 3 then .err (.badField 2)
    else
      let addr := body.getD 1 0 * 256 + body.getD 2 0
      if body.length < 4 then .err (.badField 3)
      else
        let rt := body.getD 3 0
        if body.length < 4 + recLen then .err .badData
        else .ok ⟨addr, rt, (body.drop 4).take recLen⟩

/-- Checksum phase of `decodeRecord`: pops the trailing checksum byte off the
decoded binary image and compares it with the computed checksum.  When the
image is empty, `b[len(b)-1]` panics in Go (`crash`). -/
def decodeBinary (b : List Nat) : DecRes :=
  if b.length = 0 then .crash
  else
    let checksum := b.getD (b.length - 1) 0
    let body := b.take (b.length - 1)
    if checksum ≠ calcChecksum body then .err .checksum
    else decodeFields body

/-- `decodeRecord` of `intel/read.go` after the leading marker character has
been stripped (the function never validates the marker itself). -/
def decodeAfterMarker (rest : List Char) : DecRes :=
  match hexDecode rest with
  | none => .err .malformedHex
  | some b => decodeBinary b

/-- Embedding of `decodeRecord` from `intel/read.go`: reject the empty line,
strip the first character, hex-decode, check the checksum, parse the fields. -/
def decodeRecord (s : Line) : DecRes :=
  match s with
  | [] => .err .empty
  | _ :: rest => decodeAfterMarker rest

/-- Result of reading a whole line list. -/
inductive ReadRes where
  | okL (recs : List HexRec)
  | errR (e : DecErr)
  | crash
deriving DecidableEq, Repr

/-- Embedding of the record loop of the first `ReadFile` copy in
`intel/read.go` (lines 128-135): for the first non-empty line it executes
`hr, err := decodeRecord(rec); return hrecs, err` — returning the still-nil
record slice unconditionally, so the following `append` is unreachable. -/
def ReadFile_v1 : List Line → ReadRes
  | [] => .okL []
  | l :: ls =>
    if l.length > 0 then
      match decodeRecord l with
      | .ok _ => .okL []
      | .err e => .errR e
      | .crash => .crash
    else ReadFile_v1 ls

/-- Embedding of the record loop of the second `ReadFile` copy in
`intel/read.go` (lines 314-323): decodes every non-empty line in order,
aborting with the first error and no partial list. -/
def ReadFile_v2 : List Line → ReadRes
  | [] => .okL []
  | l :: ls =>
    if l.length > 0 then
      match decodeRecord l with
      | .ok r =>
        match ReadFile_v2 ls with
        | .okL rs => .okL (r :: rs)
        | e => e
      | .err e => .errR e
      | .crash => .crash
    else ReadFile_v2 ls

/-- Writer state of `intel/write.go`: record width, 16-bit address cursor, and
the byte FIFO.  The output sink is modelled by returning the emitted lines. -/
structure Writer where
  width : Nat
  addr : Nat
  fifo : List Nat
deriving DecidableEq, Repr

/-- `NewWriterWidth` of `intel/write.go`. -/
def NewWriterWidth (width : Nat) : Writer := ⟨width, 0, []⟩

/-- Big-endian 16-bit address bytes, as `binary.Write(_, BigEndian, uint16)`. -/
def be16 (a : Nat) : List Nat := [a / 256 % 256, a % 256]

/-- `emitRecord` of `intel/write.go`: append the checksum to the binary image
and hex-encode in upper case behind the `:` marker. -/
def emitRecord (body : List Nat) : Line :=
  ':' :: hexEncodeUpper (body ++ [calcChecksum body])

/-- `emitDataRecord` of `intel/write.go`: frame the payload as a Data record at
the current address and advance the 16-bit address cursor. -/
def emitDataRecord (w : Writer) (p : List Nat) : Writer × Line :=
  ({ w with addr := (w.addr + p.length) % 65536 },
   emitRecord (p.length % 256 :: be16 w.addr ++ DataTyp :: p))

/-- `Flush` of `intel/write.go`: emit the FIFO remainder as one runt Data
record when the FIFO is non-empty, otherwise do nothing. -/
def Flush (w : Writer) : Option String × Writer × List Line :=
  if w.fifo.length > 0 then
    let r := emitDataRecord { w with fifo := [] } w.fifo
    (none, r.1, [r.2])
  else (none, w, [])

/-- `Close` of `intel/write.go`: flush the residual data (ignoring the flush
result) and emit the EOF record.  There is no closed-flag in this family, so
nothing stops a repeated `Close`. -/
def Close (w : Writer) : Option String × Writer × List Line :=
  let f := Flush w
  (none, f.2.1, f.2.2 ++ [emitRecord [0, 0, 0, EndOfFileTyp]])

/-- Run state of `CoalesceDataRecs` in `intel/read.go`: base address of the
open run, the `addressCounter` expected-next address, and the accumulation
buffer. -/
structure Run where
  base : Nat
  counter : Nat
  buf : List Nat
deriving DecidableEq, Repr

/-- Loop of `CoalesceDataRecs` in `intel/read.go` (lines 369-384), with the
mutable `dataRecGroup`/`dataBaseAddr`/`addressCounter`/`data` state made
explicit as an optional open `Run`: the group flag is false exactly when no
run is open, and then the accumulation buffer is empty.  A data record opens
a run, extends it when its address equals the expected-next counter, or
closes it (`emitJumboDataRec`, unguarded) and reopens on itself; any other
record closes an open run first — but `emitJumboDataRec` is then guarded by
`data.Len() > 0`, as is the final emission.  Address arithmetic wraps at
`2^16` (`uint16`). -/
def coalesceGo : Option Run → List HexRec → List HexRec
  | none, [] => []
  | some run, [] =>
    if run.buf.length > 0 then [⟨run.base, DataTyp, run.buf⟩] else []
  | none, r :: rs =>
    if r.RecordType = DataTyp then
      coalesceGo (some ⟨r.Address, (r.Address + r.Data.length) % 65536, r.Data⟩) rs
    else r :: coalesceGo none rs
  | some run, r :: rs =>
    if r.RecordType = DataTyp then
      if r.Address = run.counter then
        coalesceGo (some ⟨run.base, (run.counter + r.Data.length) % 65536, run.buf ++ r.Data⟩) rs
      else
        ⟨run.base, DataTyp, run.buf⟩ ::
          coalesceGo (some ⟨r.Address, (r.Address + r.Data.length) % 65536, r.Data⟩) rs
    else
      (if run.buf.length > 0 then [⟨run.base, DataTyp, run.buf⟩] else []) ++
        r :: coalesceGo none rs

/-- `CoalesceDataRecs` of `intel/read.go`: merge runs of address-contiguous
Data records into single jumbo Data records, pass all other records through
unchanged. -/
def CoalesceDataRecs (list : List HexRec) : List HexRec :=
  coalesceGo none list

end ihex

namespace ihex0

/-- `Flush` of the `part_000` draft writer: emits
`emitDataRecord(x.fifo.Next(x.fifo.Len()))` unconditionally, so an empty FIFO
still produces a zero-length Data record. -/
def Flush (w : ihex.Writer) : Option String × ihex.Writer × List Line :=
  let r := ihex.emitDataRecord { w with fifo := [] } w.fifo
  (none, r.1, [r.2])

end ihex0

namespace srec

/-- Embedding of `calcChecksum` from `srec/checksum.go` (one's complement of
the wrapped byte sum): `^cs` for the byte sum `cs`. -/
def calcChecksum (b : List Nat) : Nat := 255 - b.sum % 256

/-- `calcChecksumHexAscii` of `srec/checksum.go`: decode the ASCII-hex string
to bytes and checksum the binary image; fails when the hex decode fails. -/
def calcChecksumHexAscii (s : List Char) : Option Nat :=
  (hexDecode s).map calcChecksum

/-- Record of the variable-address-width family (`HexRec` of `srec/read.go`).
`RecordType` carries the `srecType` value (an `int`; `S_Unknown = -1`). -/
structure HexRec where
  Address : Nat
  RecordType : Int
  Data : List Nat
deriving DecidableEq, Repr

/-- Lookup in the `srecTypeMap` map built by `init()` in `srec/read.go`:
the Sprintf-generated keys `S0`..`S9` (without `S4`) map to their enum
values; any other key yields the map's zero value `0`, which is `S0Header`,
not `S_Unknown = -1`. -/
def srecTypeMap (s : List Char) : Int :=
  if s = "S0".data then 0
  else if s = "S1".data then 1
  else if s = "S2".data then 2
  else if s = "S3".data then 3
  else if s = "S5".data then 5
  else if s = "S6".data then 6
  else if s = "S7".data then 7
  else if s = "S8".data then 8
  else if s = "S9".data then 9
  else 0

/-- Decode errors of the srec-family decoder, one per error return of
`decodeRecord` in `srec/read.go`, plus `recovered` for the error produced by
the deferred `recover` handler ("run time panic: ..."). -/
inductive DecErr where
  /-- "Unknown SREC type" -/
  | unknownType
  /-- checksum field fails `strconv.ParseUint` -/
  | csParse
  /-- `calcChecksumHexAscii` fails to hex-decode the checksum region -/
  | csDataBad
  /-- "Checksum error" -/
  | checksumMismatch
  /-- "Data chars bad: ..." -/
  | dataChars
  /-- "Address field error: ..." -/
  | addrField
  /-- "Byte-count field error: ..." -/
  | countField
  /-- "byte-count error" -/
  | byteCountMismatch
  /-- "run time panic: ..." from the recover handler -/
  | recovered
deriving DecidableEq, Repr

/-- Result of the srec-family decoder body; `crash` models an unrecovered
Go runtime panic (out-of-range slice of the record string). -/
inductive DecRes where
  | ok (rec : HexRec)
  | err (e : DecErr)
  | crash
deriving DecidableEq, Repr

/-- Address-width-specific tail of `decodeRecord` in `srec/read.go`: `aEnd` is
the character index where the address field ends (8, 10 or 12) and `ovhd` the
per-type overhead added to the payload length (3, 4 or 5).  Follows the
source order: split off the checksum, parse it, recompute the checksum over
`r[2:len(r)-2]`, compare, hex-decode the payload, parse address and byte
count, and check the byte count. -/
def decodeTail (r : List Char) (aEnd ovhd : Nat) (recTyp : Int) : DecRes :=
  if r.length < aEnd then .crash
  else
    let address := (r.drop 4).take (aEnd - 4)
    let data := r.drop aEnd
    if data.length < 2 then .crash
    else
      let checksum := data.drop (data.length - 2)
      let dataStr := data.take (data.length - 2)
      let csData := (r.drop 2).take (r.length - 4)
      match parseUintHex checksum 8 with
      | none => .err .csParse
      | some cs =>
        match calcChecksumHexAscii csData with
        | none => .err .csDataBad
        | some csCalc =>
          if cs ≠ csCalc then .err .checksumMismatch
          else
            match hexDecode dataStr with
            | none => .err .dataChars
            | some binData =>
              match parseUintHex address 32 with
              | none => .err .addrField
              | some addrBin =>
                match parseUintHex ((r.drop 2).take 2) 8 with
                | none => .err .countField
                | some bc =>
                  if bc ≠ binData.length + ovhd then .err .byteCountMismatch
                  else .ok ⟨addrBin, recTyp, binData⟩

/-- Body of `decodeRecord` from `srec/read.go` without the deferred `recover`:
slicing a line shorter than 4 characters panics (`crash`), the record type is
looked up in `srecTypeMap`, and the switch dispatches on the address width.
The `default` branch returns the "Unknown SREC type" error. -/
def decodeRecordRaw (r : List Char) : DecRes :=
  if r.length < 4 then .crash
  else
    let recTyp := srecTypeMap (r.take 2)
    if recTyp = 0 ∨ recTyp = 1 ∨ recTyp = 5 ∨ recTyp = 9 then
      decodeTail r 8 3 recTyp
    else if recTyp = 2 ∨ recTyp = 6 ∨ recTyp = 8 then
      decodeTail r 10 4 recTyp
    else if recTyp = 3 ∨ recTyp = 7 then
      decodeTail r 12 5 recTyp
    else .err .unknownType

/-- `decodeRecord` of `srec/read.go`, with its deferred `recover` handler:
any runtime panic of the body is converted into the ordinary error
`fmt.Errorf("run time panic: %v", x)`. -/
def decodeRecord (r : List Char) : DecRes :=
  match decodeRecordRaw r with
  | .crash => .err .recovered
  | x => x

/-- `processRecords` of `srec/read.go`: decode every non-empty line in order,
returning the first error with no partial list.  (`decodeRecord` never
crashes thanks to its recover handler; the `crash` arm is unreachable and
mapped to the recovered-panic error.) -/
def processRecords : List Line → Except DecErr (List HexRec)
  | [] => .ok []
  | l :: ls =>
    if l.length > 0 then
      match decodeRecord l with
      | .ok r =>
        match processRecords ls with
        | .ok rs => .ok (r :: rs)
        | .error e => .error e
      | .err e => .error e
      | .crash => .error .recovered
    else processRecords ls

/-- Run state of `CoalesceDataRecs` in `srec/read.go`: base address of the
open run, the `addressCounter` expected-next address, and the accumulation
buffer. -/
structure Run where
  base : Nat
  counter : Nat
  buf : List Nat
deriving DecidableEq, Repr

/-- Loop of `CoalesceDataRecs` in `srec/read.go`, with the mutable
`dataRecGroup`/`dataBaseAddr`/`addressCounter`/`data` state made explicit as
an optional open `Run` (the group flag is false exactly when the buffer is
empty and no run is open).  `pt` is the pre-computed preferred data record
type used for every emitted jumbo record.  Address arithmetic wraps at
`2^32` (`uint32`). -/
def coalesceGo (pt : Int) : Option Run → List HexRec → List HexRec
  | none, [] => []
  | some run, [] =>
    if run.buf.length > 0 then [⟨run.base, pt, run.buf⟩] else []
  | none, r :: rs =>
    if r.RecordType = 1 ∨ r.RecordType = 2 ∨ r.RecordType = 3 then
      coalesceGo pt (some ⟨r.Address, (r.Address + r.Data.length) % 4294967296, r.Data⟩) rs
    else r :: coalesceGo pt none rs
  | some run, r :: rs =>
    if r.RecordType = 1 ∨ r.RecordType = 2 ∨ r.RecordType = 3 then
      if r.Address = run.counter then
        coalesceGo pt (some ⟨run.base, (run.counter + r.Data.length) % 4294967296, run.buf ++ r.Data⟩) rs
      else
        ⟨run.base, pt, run.buf⟩ ::
          coalesceGo pt (some ⟨r.Address, (r.Address + r.Data.length) % 4294967296, r.Data⟩) rs
    else
      (if run.buf.length > 0 then [⟨run.base, pt, run.buf⟩] else []) ++
        r :: coalesceGo pt none rs

/-- Survey pass of `CoalesceDataRecs` in `srec/read.go` (the
`s1Count`/`s2Count`/`s3Count` loop and the preference chain): the preferred
data record type is S3 if any S3 record is present, else S2 if any S2 record
is present, else S1. -/
def preferredType (list : List HexRec) : Int :=
  if list.any (fun r => r.RecordType = 3) then 3
  else if list.any (fun r => r.RecordType = 2) then 2
  else 1

/-- `CoalesceDataRecs` of `srec/read.go`: survey the input for the widest data
record type present (S3 over S2 over S1), then merge contiguous data runs,
emitting every jumbo record with that preferred type. -/
def CoalesceDataRecs (list : List HexRec) : List HexRec :=
  coalesceGo (preferredType list) none list

/-- Address modes of the srec writer (`AddrMode` of `part_005`). -/
inductive AddrMode where
  | Addr16
  | Addr24
  | Addr32
deriving DecidableEq, Repr

/-- Writer state of the srec family (`Writer` of `part_005`), with the
output sink modelled by returning emitted lines. -/
structure Writer where
  addr : Nat
  count : Nat
  fin : Bool
  buf : List Nat
  emitCountRec : Bool
  emitStartRec : Bool
  startAddr : Nat
  addrMode : AddrMode
  width : Nat
  header : Option (List Nat)
  headerEmitted : Bool
deriving DecidableEq, Repr

/-- `NewWriter` of `part_005`: zero state with the default width of 10. -/
def NewWriter (m : AddrMode) : Writer :=
  ⟨0, 0, false, [], false, false, 0, m, 10, none, false⟩

/-- Big-endian byte slices of `bigEndianBin(x)[2:]`, `[1:]` and the full
4-byte image, for a `uint32` value. -/
def be2 (a : Nat) : List Nat := [a / 256 % 256, a % 256]

/-- 24-bit big-endian bytes (`bigEndianBin(x)[1:]`). -/
def be3 (a : Nat) : List Nat := [a / 65536 % 256, a / 256 % 256, a % 256]

/-- 32-bit big-endian bytes (`bigEndianBin(x)`). -/
def be4 (a : Nat) : List Nat :=
  [a / 16777216 % 256, a / 65536 % 256, a / 256 % 256, a % 256]

/-- Assemble one S-record line: the `S` marker, the type character, and the
lower-case hex encoding of the binary image with its trailing checksum. -/
def srecLine (t : Char) (core : List Nat) : Line :=
  'S' :: t :: hexEncode (core ++ [calcChecksum core])

/-- Binary core of a data record as built by `emitDataRecord` of `part_005`:
note the `Addr32` case writes the length byte as `len(p) + 4`, not `+ 5`. -/
def dataRecCore (m : AddrMode) (addr : Nat) (p : List Nat) : List Nat :=
  match m with
  | .Addr16 => (p.length + 3) % 256 :: be2 addr ++ p
  | .Addr24 => (p.length + 4) % 256 :: be3 addr ++ p
  | .Addr32 => (p.length + 4) % 256 :: be4 addr ++ p

/-- Type character of a data record for the given address mode. -/
def dataTypChar (m : AddrMode) : Char :=
  match m with
  | .Addr16 => '1'
  | .Addr24 => '2'
  | .Addr32 => '3'

/-- The text line emitted by `emitDataRecord` of `part_005`. -/
def emitDataRecordLine (m : AddrMode) (addr : Nat) (p : List Nat) : Line :=
  srecLine (dataTypChar m) (dataRecCore m addr p)

/-- The text line emitted by `emitHeaderRecord` of `part_005`. -/
def emitHeaderRecordLine (h : List Nat) : Line :=
  srecLine '0' ((h.length + 3) % 256 :: 0 :: 0 :: h)

/-- The text line emitted by `emitCountRecord` of `part_005`: an S6 record
with a 3-byte count for more than 65535 data records, otherwise an S5 record
with a 2-byte count. -/
def emitCountRecordLine (count : Nat) : Line :=
  if count > 65535 then srecLine '6' ((3 + 1) :: be3 count)
  else srecLine '5' ((2 + 1) :: be2 count)

/-- The text line emitted by `emitStartAddrRec` of `part_005`. -/
def emitStartAddrRecLine (m : AddrMode) (a : Nat) : Line :=
  match m with
  | .Addr16 => srecLine '9' (3 :: be2 a)
  | .Addr24 => srecLine '8' (4 :: be3 a)
  | .Addr32 => srecLine '7' (5 :: be4 a)

/-- The full-width-record emission loop of `Write` in `part_005`
(`for x.fifo.Len() >= x.width { x.emitDataRecord(x.fifo.Next(x.width)) }`),
written with explicit fuel; `fuel = buf.length` always suffices because each
iteration removes `width ≥ 1` bytes.  (For `width = 0` the Go loop would not
terminate; the model is only used with the positive widths the writer is
configured with.)  Returns the final address cursor, data record count,
residual FIFO and the emitted lines. -/
def writeLoopF : Nat → AddrMode → Nat → Nat → Nat → List Nat →
    Nat × Nat × List Nat × List Line
  | 0, _, _, addr, count, buf => (addr, count, buf, [])
  | fuel + 1, m, width, addr, count, buf =>
    if 0 < width ∧ width ≤ buf.length then
      let chunk := buf.take width
      let line := emitDataRecordLine m addr chunk
      let r := writeLoopF fuel m width ((addr + chunk.length) % 4294967296)
        (count + 1) (buf.drop width)
      (r.1, r.2.1, r.2.2.1, line :: r.2.2.2)
    else (addr, count, buf, [])

/-- `Write` of `part_005`: reject a closed writer, emit the configured header
record before the first payload, append to the FIFO, then emit as many
full-width data records as possible. -/
def Write (w : Writer) (p : List Nat) : Option String × Writer × List Line :=
  if w.fin then (some "Writer closed", w, [])
  else
    let wh :=
      if w.header.isSome ∧ w.headerEmitted = false then
        ({ w with headerEmitted := true }, [emitHeaderRecordLine (w.header.getD [])])
      else (w, ([] : List Line))
    let buf1 := wh.1.buf ++ p
    let r := writeLoopF buf1.length wh.1.addrMode wh.1.width wh.1.addr wh.1.count buf1
    (none, { wh.1 with addr := r.1, count := r.2.1, buf := r.2.2.1 }, wh.2 ++ r.2.2.2)

/-- `Flush` of `part_005`: emit the residual FIFO as one runt data record when
it is non-empty. -/
def Flush (w : Writer) : Option String × Writer × List Line :=
  if w.buf.length > 0 then
    (none,
     { w with addr := (w.addr + w.buf.length) % 4294967296,
              count := w.count + 1, buf := [] },
     [emitDataRecordLine w.addrMode w.addr w.buf])
  else (none, w, [])

/-- `Close` of `part_005`: a second call is rejected with
"Writer already closed"; otherwise flush the residue, optionally emit the
count and start-address trailer records, and mark the writer closed (the
deferred `x.fin = true` runs on every non-rejected path). -/
def Close (w : Writer) : Option String × Writer × List Line :=
  if w.fin then (some "Writer already closed", w, [])
  else
    let f := Flush w
    let cl :=
      if f.2.1.emitCountRec then [emitCountRecordLine f.2.1.count]
      else ([] : List Line)
    let sl :=
      if f.2.1.emitStartRec then [emitStartAddrRecLine f.2.1.addrMode f.2.1.startAddr]
      else ([] : List Line)
    (none, { f.2.1 with fin := true }, f.2.2 ++ cl ++ sl)

/-- Lines produced by creating a default writer for the given address mode,
writing `p`, and closing — the encoding side of the round-trip scenario. -/
def writeCloseLines (m : AddrMode) (p : List Nat) : List Line :=
  let r1 := Write (NewWriter m) p
  let r2 := Close r1.2.1
  r1.2.2 ++ r2.2.2

end srec

namespace srec

/-- `S_Unknown` enum value of `srec/read.go` (`iota - 1`). -/
abbrev S_Unknown : Int := -1

/-- `S0Header` enum value. -/
abbrev S0Header : Int := 0

/-- `S1Data` enum value. -/
abbrev S1Data : Int := 1

/-- `S2Data` enum value. -/
abbrev S2Data : Int := 2

/-- `S3Data` enum value. -/
abbrev S3Data : Int := 3

/-- `S5Count` enum value. -/
abbrev S5Count : Int := 5

/-- `S9Start` enum value. -/
abbrev S9Start : Int := 9

/-- The record types `CoalesceDataRecs` treats as data records (S1/S2/S3). -/
def isDataRec (r : HexRec) : Prop :=
  r.RecordType = 1 ∨ r.RecordType = 2 ∨ r.RecordType = 3

/-- A jumbo data record emitted by the srec `emitJumboDataRec`: the run's base
address, the preferred data record type, and the accumulated buffer. -/
def mkDataS (pt : Int) (run : Run) : HexRec := ⟨run.base, pt, run.buf⟩

/-- Every data record (S1/S2/S3) of the sequence has a non-empty payload. -/
def NoEmptyDataS (l : List HexRec) : Prop :=
  ∀ r ∈ l, isDataRec r → r.Data ≠ []

/-- Two adjacent records are separated: if both are data records, the second
does not start exactly where the first one ends (in wrapped 32-bit address
arithmetic), so the coalescer will not merge them. -/
def SepS (a b : HexRec) : Prop :=
  isDataRec a → isDataRec b →
    b.Address ≠ (a.Address + a.Data.length) % 4294967296

/-- Every data record (S1/S2/S3) of the sequence has record type `pt` — the
shape of a coalescer output, whose jumbo records all carry the preferred
type. -/
def DataTyped (pt : Int) (l : List HexRec) : Prop :=
  ∀ r ∈ l, isDataRec r → r.RecordType = pt

/-- Invariant of an open run: the expected-next counter is the base address
plus the accumulated length, in wrapped 32-bit arithmetic. -/
def RunInvS (run : Run) : Prop :=
  run.counter = (run.base + run.buf.length) % 4294967296

end srec

namespace ihex

/-- A jumbo data record emitted by `emitJumboDataRec`: the run's base address,
the `Data` record type, and the accumulated buffer. -/
def mkData (run : Run) : HexRec := ⟨run.base, DataTyp, run.buf⟩

/-- Every Data record of the sequence has a non-empty payload. -/
def NoEmptyData (l : List HexRec) : Prop :=
  ∀ r ∈ l, r.RecordType = DataTyp → r.Data ≠ []

/-- Two adjacent records are separated: if both are Data records, the second
does not start exactly where the first one ends (in wrapped 16-bit address
arithmetic), so the coalescer will not merge them. -/
def Sep (a b : HexRec) : Prop :=
  a.RecordType = DataTyp → b.RecordType = DataTyp →
    b.Address ≠ (a.Address + a.Data.length) % 65536

/-- Invariant of an open run: the expected-next counter is the base address
plus the accumulated length, in wrapped 16-bit arithmetic. -/
def RunInv (run : Run) : Prop :=
  run.counter = (run.base + run.buf.length) % 65536

theorem NoEmptyData_nil : NoEmptyData [] := by
  intro r hr
  cases hr

theorem NoEmptyData_cons {r : HexRec} {l : List HexRec} :
    NoEmptyData (r :: l) ↔ (r.RecordType = DataTyp → r.Data ≠ []) ∧ NoEmptyData l := by
  constructor
  · intro h
    exact ⟨h r (List.mem_cons_self r l), fun x hx => h x (List.mem_cons_of_mem r hx)⟩
  · intro h x hx
    rcases List.mem_cons.mp hx with h1 | h2
    · subst h1; exact h.1
    · exact h.2 x h2

/-- Shape of the coalescer's output: on input whose Data records are all
non-empty, the output again has only non-empty Data records and no two
adjacent output Data records are contiguous; moreover, processing with an
open run whose buffer is non-empty produces a first output record that is a
Data record at the run's base address. -/
theorem coalesceGo_out (l : List HexRec) :
    (NoEmptyData l →
      NoEmptyData (coalesceGo none l) ∧ List.Chain' Sep (coalesceGo none l)) ∧
    (∀ run : Run, NoEmptyData l → RunInv run → run.buf ≠ [] →
      ∃ d rest, coalesceGo (some run) l = d :: rest ∧
        d.RecordType = DataTyp ∧ d.Address = run.base ∧ d.Data ≠ [] ∧
        NoEmptyData (d :: rest) ∧ List.Chain' Sep (d :: rest)) := by
  induction l with
  | nil =>
    constructor
    · intro _
      exact ⟨NoEmptyData_nil, List.chain'_nil⟩
    · intro run _ _ hbuf
      refine ⟨mkData run, [], ?_, rfl, rfl, hbuf, ?_, List.chain'_singleton _⟩
      · simp [coalesceGo, List.length_pos_iff_ne_nil.mpr hbuf, mkData]
      · rw [NoEmptyData_cons]
        exact ⟨fun _ => hbuf, NoEmptyData_nil⟩
  | cons r rs ih =>
    constructor
    · intro hne
      rw [NoEmptyData_cons] at hne
      by_cases hd : r.RecordType = DataTyp
      · have hbuf : r.Data ≠ [] := hne.1 hd
        have hinv : RunInv ⟨r.Address, (r.Address + r.Data.length) % 65536, r.Data⟩ := rfl
        obtain ⟨d, rest, hout, hdt, hda, hdne, hnem, hch⟩ :=
          ih.2 ⟨r.Address, (r.Address + r.Data.length) % 65536, r.Data⟩ hne.2 hinv hbuf
        rw [show coalesceGo none (r :: rs) =
          coalesceGo (some ⟨r.Address, (r.Address + r.Data.length) % 65536, r.Data⟩) rs from by
            simp [coalesceGo, hd]]
        rw [hout]
        exact ⟨hnem, hch⟩
      · have hrec : coalesceGo none (r :: rs) = r :: coalesceGo none rs := by
          simp [coalesceGo, hd]
        obtain ⟨hnem, hch⟩ := ih.1 hne.2
        rw [hrec, NoEmptyData_cons]
        refine ⟨⟨fun h => absurd h hd, hnem⟩, ?_⟩
        rw [List.chain'_cons']
        refine ⟨fun y _ => ?_, hch⟩
        intro hrd
        exact absurd hrd hd
    · intro run hne hinv hbuf
      rw [NoEmptyData_cons] at hne
      by_cases hd : r.RecordType = DataTyp
      · by_cases hc : r.Address = run.counter
        · -- contiguous: extend the run
          have hbuf' : run.buf ++ r.Data ≠ [] := by
            intro h
            exact hbuf (List.append_eq_nil.mp h).1
          have hinv' : RunInv ⟨run.base, (run.counter + r.Data.length) % 65536,
              run.buf ++ r.Data⟩ := by
            unfold RunInv at hinv ⊢
            simp only [List.length_append]
            omega
          obtain ⟨d, rest, hout, hdt, hda, hdne, hnem, hch⟩ :=
            ih.2 ⟨run.base, (run.counter + r.Data.length) % 65536, run.buf ++ r.Data⟩
              hne.2 hinv' hbuf'
          refine ⟨d, rest, ?_, hdt, hda, hdne, hnem, hch⟩
          rw [show coalesceGo (some run) (r :: rs) =
            coalesceGo (some ⟨run.base, (run.counter + r.Data.length) % 65536,
              run.buf ++ r.Data⟩) rs from by simp [coalesceGo, hd, hc]]
          exact hout
        · -- not contiguous: emit the jumbo record and reopen on `r`
          have hbuf' : r.Data ≠ [] := hne.1 hd
          have hinv' : RunInv ⟨r.Address, (r.Address + r.Data.length) % 65536, r.Data⟩ := rfl
          obtain ⟨d, rest, hout, hdt, hda, hdne, hnem, hch⟩ :=
            ih.2 ⟨r.Address, (r.Address + r.Data.length) % 65536, r.Data⟩ hne.2 hinv' hbuf'
          refine ⟨mkData run, d :: rest, ?_, rfl, rfl, hbuf, ?_, ?_⟩
          · rw [show coalesceGo (some run) (r :: rs) = mkData run ::
              coalesceGo (some ⟨r.Address, (r.Address + r.Data.length) % 65536, r.Data⟩) rs
              from by simp [coalesceGo, hd, hc, mkData]]
            rw [hout]
          · rw [NoEmptyData_cons]
            exact ⟨fun _ => hbuf, hnem⟩
          · rw [List.chain'_cons']
            refine ⟨fun y hy => ?_, hch⟩
            simp only [List.head?_cons, Option.mem_def, Option.some.injEq] at hy
            subst hy
            intro _ _
            rw [hda]
            show r.Address ≠ ((mkData run).Address + (mkData run).Data.length) % 65536
            unfold RunInv at hinv
            simp only [mkData]
            rw [← hinv]
            exact hc
      · -- non-Data record closes the (non-empty) run
        have hemit : coalesceGo (some run) (r :: rs) =
            mkData run :: r :: coalesceGo none rs := by
          simp [coalesceGo, hd, List.length_pos_iff_ne_nil.mpr hbuf, mkData]
        obtain ⟨hnem, hch⟩ := ih.1 hne.2
        refine ⟨mkData run, r :: coalesceGo none rs, hemit, rfl, rfl, hbuf, ?_, ?_⟩
        · rw [NoEmptyData_cons]
          refine ⟨fun _ => hbuf, ?_⟩
          rw [NoEmptyData_cons]
          exact ⟨fun h => absurd h hd, hnem⟩
        · rw [List.chain'_cons']
          refine ⟨fun y hy => ?_, ?_⟩
          · simp only [List.head?_cons, Option.mem_def, Option.some.injEq] at hy
            subst hy
            intro _ hrd
            exact absurd hrd hd
          · rw [List.chain'_cons']
            refine ⟨fun y _ => ?_, hch⟩
            intro hrd
            exact absurd hrd hd

/-- The coalescer is the identity on sequences that already have its output
shape: only non-empty Data records, no two adjacent ones contiguous.  The
second conjunct handles processing such a sequence with an open run whose
record would not merge with the head of the sequence. -/
theorem coalesceGo_fix (l : List HexRec) :
    (NoEmptyData l → List.Chain' Sep l → coalesceGo none l = l) ∧
    (∀ run : Run, NoEmptyData l → List.Chain' Sep l → RunInv run → run.buf ≠ [] →
      (∀ b, l.head? = some b → Sep (mkData run) b) →
      coalesceGo (some run) l = mkData run :: l) := by
  induction l with
  | nil =>
    constructor
    · intro _ _
      rfl
    · intro run _ _ _ hbuf _
      simp [coalesceGo, List.length_pos_iff_ne_nil.mpr hbuf, mkData]
  | cons r rs ih =>
    constructor
    · intro hne hch
      rw [NoEmptyData_cons] at hne
      rw [List.chain'_cons'] at hch
      by_cases hd : r.RecordType = DataTyp
      · rw [show coalesceGo none (r :: rs) =
          coalesceGo (some ⟨r.Address, (r.Address + r.Data.length) % 65536, r.Data⟩) rs from by
            simp [coalesceGo, hd]]
        have hmk : mkData ⟨r.Address, (r.Address + r.Data.length) % 65536, r.Data⟩ = r := by
          simp only [mkData]
          cases r with
          | mk a t dta =>
            simp only at hd
            simp [hd]
        rw [ih.2 ⟨r.Address, (r.Address + r.Data.length) % 65536, r.Data⟩ hne.2 hch.2 rfl
          (hne.1 hd) (fun b hb => by rw [hmk]; exact hch.1 b hb)]
        rw [hmk]
      · rw [show coalesceGo none (r :: rs) = r :: coalesceGo none rs from by
          simp [coalesceGo, hd]]
        rw [ih.1 hne.2 hch.2]
    · intro run hne hch hinv hbuf hsep
      rw [NoEmptyData_cons] at hne
      rw [List.chain'_cons'] at hch
      by_cases hd : r.RecordType = DataTyp
      · have hnc : r.Address ≠ run.counter := by
          have := hsep r rfl rfl hd
          intro h
          apply this
          rw [h, hinv]
          rfl
        rw [show coalesceGo (some run) (r :: rs) = mkData run ::
            coalesceGo (some ⟨r.Address, (r.Address + r.Data.length) % 65536, r.Data⟩) rs
          from by simp [coalesceGo, hd, hnc, mkData]]
        have hmk : mkData ⟨r.Address, (r.Address + r.Data.length) % 65536, r.Data⟩ = r := by
          simp only [mkData]
          cases r with
          | mk a t dta =>
            simp only at hd
            simp [hd]
        rw [ih.2 ⟨r.Address, (r.Address + r.Data.length) % 65536, r.Data⟩ hne.2 hch.2 rfl
          (hne.1 hd) (fun b hb => by rw [hmk]; exact hch.1 b hb)]
        rw [hmk]
      · rw [show coalesceGo (some run) (r :: rs) =
            mkData run :: r :: coalesceGo none rs from by
          simp [coalesceGo, hd, List.length_pos_iff_ne_nil.mpr hbuf, mkData]]
        rw [ih.1 hne.2 hch.2]

end ihex

namespace srec

theorem NoEmptyDataS_nil : NoEmptyDataS [] := by
  intro r hr
  cases hr

theorem NoEmptyDataS_cons {r : HexRec} {l : List HexRec} :
    NoEmptyDataS (r :: l) ↔ (isDataRec r → r.Data ≠ []) ∧ NoEmptyDataS l := by
  constructor
  · intro h
    exact ⟨h r (List.mem_cons_self r l), fun x hx => h x (List.mem_cons_of_mem r hx)⟩
  · intro h x hx
    rcases List.mem_cons.mp hx with h1 | h2
    · subst h1; exact h.1
    · exact h.2 x h2

theorem DataTyped_nil (pt : Int) : DataTyped pt [] := by
  intro r hr
  cases hr

theorem DataTyped_cons {pt : Int} {r : HexRec} {l : List HexRec} :
    DataTyped pt (r :: l) ↔ (isDataRec r → r.RecordType = pt) ∧ DataTyped pt l := by
  constructor
  · intro h
    exact ⟨h r (List.mem_cons_self r l), fun x hx => h x (List.mem_cons_of_mem r hx)⟩
  · intro h x hx
    rcases List.mem_cons.mp hx with h1 | h2
    · subst h1; exact h.1
    · exact h.2 x h2

/-- Shape of the srec coalescer's output: on input whose data records are all
non-empty, the output has only non-empty data records, no two adjacent output
data records are contiguous, and every data record in the output carries the
preferred type `pt`; processing with an open non-empty run produces a first
output record that is a `pt`-typed record at the run's base address. -/
theorem coalesceGoS_out (pt : Int) (l : List HexRec) :
    (NoEmptyDataS l →
      NoEmptyDataS (coalesceGo pt none l) ∧ List.Chain' SepS (coalesceGo pt none l) ∧
        DataTyped pt (coalesceGo pt none l)) ∧
    (∀ run : Run, NoEmptyDataS l → RunInvS run → run.buf ≠ [] →
      ∃ d rest, coalesceGo pt (some run) l = d :: rest ∧
        d.RecordType = pt ∧ d.Address = run.base ∧ d.Data ≠ [] ∧
        NoEmptyDataS (d :: rest) ∧ List.Chain' SepS (d :: rest) ∧
        DataTyped pt (d :: rest)) := by
  induction l with
  | nil =>
    constructor
    · intro _
      exact ⟨NoEmptyDataS_nil, List.chain'_nil, DataTyped_nil pt⟩
    · intro run _ _ hbuf
      refine ⟨mkDataS pt run, [], ?_, rfl, rfl, hbuf, ?_, List.chain'_singleton _, ?_⟩
      · simp [coalesceGo, List.length_pos_iff_ne_nil.mpr hbuf, mkDataS]
      · rw [NoEmptyDataS_cons]
        exact ⟨fun _ => hbuf, NoEmptyDataS_nil⟩
      · rw [DataTyped_cons]
        exact ⟨fun _ => rfl, DataTyped_nil pt⟩
  | cons r rs ih =>
    constructor
    · intro hne
      rw [NoEmptyDataS_cons] at hne
      by_cases hd : r.RecordType = 1 ∨ r.RecordType = 2 ∨ r.RecordType = 3
      · have hbuf : r.Data ≠ [] := hne.1 hd
        have hinv : RunInvS ⟨r.Address, (r.Address + r.Data.length) % 4294967296, r.Data⟩ := rfl
        obtain ⟨d, rest, hout, hdt, hda, hdne, hnem, hch, hdty⟩ :=
          ih.2 ⟨r.Address, (r.Address + r.Data.length) % 4294967296, r.Data⟩ hne.2 hinv hbuf
        rw [show coalesceGo pt none (r :: rs) =
          coalesceGo pt (some ⟨r.Address, (r.Address + r.Data.length) % 4294967296, r.Data⟩) rs
          from by simp [coalesceGo, hd]]
        rw [hout]
        exact ⟨hnem, hch, hdty⟩
      · have hrec : coalesceGo pt none (r :: rs) = r :: coalesceGo pt none rs := by
          simp [coalesceGo, hd]
        obtain ⟨hnem, hch, hdty⟩ := ih.1 hne.2
        rw [hrec]
        refine ⟨?_, ?_, ?_⟩
        · rw [NoEmptyDataS_cons]
          exact ⟨fun h => absurd h hd, hnem⟩
        · rw [List.chain'_cons']
          refine ⟨fun y _ => ?_, hch⟩
          intro hrd
          exact absurd hrd hd
        · rw [DataTyped_cons]
          exact ⟨fun h => absurd h hd, hdty⟩
    · intro run hne hinv hbuf
      rw [NoEmptyDataS_cons] at hne
      by_cases hd : r.RecordType = 1 ∨ r.RecordType = 2 ∨ r.RecordType = 3
      · by_cases hc : r.Address = run.counter
        · -- contiguous: extend the run
          have hbuf2 : run.buf ++ r.Data ≠ [] := by
            intro h
            exact hbuf (List.append_eq_nil.mp h).1
          have hinv2 : RunInvS ⟨run.base, (run.counter + r.Data.length) % 4294967296,
              run.buf ++ r.Data⟩ := by
            unfold RunInvS at hinv ⊢
            simp only [List.length_append]
            omega
          obtain ⟨d, rest, hout, hdt, hda, hdne, hnem, hch, hdty⟩ :=
            ih.2 ⟨run.base, (run.counter + r.Data.length) % 4294967296, run.buf ++ r.Data⟩
              hne.2 hinv2 hbuf2
          refine ⟨d, rest, ?_, hdt, hda, hdne, hnem, hch, hdty⟩
          rw [show coalesceGo pt (some run) (r :: rs) =
            coalesceGo pt (some ⟨run.base, (run.counter + r.Data.length) % 4294967296,
              run.buf ++ r.Data⟩) rs from by simp [coalesceGo, hd, hc]]
          exact hout
        · -- not contiguous: emit the jumbo record and reopen on `r`
          have hbuf2 : r.Data ≠ [] := hne.1 hd
          have hinv2 : RunInvS ⟨r.Address, (r.Address + r.Data.length) % 4294967296, r.Data⟩ := rfl
          obtain ⟨d, rest, hout, hdt, hda, hdne, hnem, hch, hdty⟩ :=
            ih.2 ⟨r.Address, (r.Address + r.Data.length) % 4294967296, r.Data⟩ hne.2 hinv2 hbuf2
          refine ⟨mkDataS pt run, d :: rest, ?_, rfl, rfl, hbuf, ?_, ?_, ?_⟩
          · rw [show coalesceGo pt (some run) (r :: rs) = mkDataS pt run ::
              coalesceGo pt (some ⟨r.Address, (r.Address + r.Data.length) % 4294967296,
                r.Data⟩) rs from by simp [coalesceGo, hd, hc, mkDataS]]
            rw [hout]
          · rw [NoEmptyDataS_cons]
            exact ⟨fun _ => hbuf, hnem⟩
          · rw [List.chain'_cons']
            refine ⟨fun y hy => ?_, hch⟩
            simp only [List.head?_cons, Option.mem_def, Option.some.injEq] at hy
            subst hy
            intro _ _
            rw [hda]
            show r.Address ≠
              ((mkDataS pt run).Address + (mkDataS pt run).Data.length) % 4294967296
            unfold RunInvS at hinv
            simp only [mkDataS]
            rw [← hinv]
            exact hc
          · rw [DataTyped_cons]
            exact ⟨fun _ => rfl, hdty⟩
      · -- non-data record closes the (non-empty) run
        have hemit : coalesceGo pt (some run) (r :: rs) =
            mkDataS pt run :: r :: coalesceGo pt none rs := by
          simp [coalesceGo, hd, List.length_pos_iff_ne_nil.mpr hbuf, mkDataS]
        obtain ⟨hnem, hch, hdty⟩ := ih.1 hne.2
        refine ⟨mkDataS pt run, r :: coalesceGo pt none rs, hemit, rfl, rfl, hbuf, ?_, ?_, ?_⟩
        · rw [NoEmptyDataS_cons]
          refine ⟨fun _ => hbuf, ?_⟩
          rw [NoEmptyDataS_cons]
          exact ⟨fun h => absurd h hd, hnem⟩
        · rw [List.chain'_cons']
          refine ⟨fun y hy => ?_, ?_⟩
          · simp only [List.head?_cons, Option.mem_def, Option.some.injEq] at hy
            subst hy
            intro _ hrd
            exact absurd hrd hd
          · rw [List.chain'_cons']
            refine ⟨fun y _ => ?_, hch⟩
            intro hrd
            exact absurd hrd hd
        · rw [DataTyped_cons]
          refine ⟨fun _ => rfl, ?_⟩
          rw [DataTyped_cons]
          exact ⟨fun h => absurd h hd, hdty⟩

/-- The srec coalescer with preferred type `pt` is the identity on sequences
that already have its output shape: only non-empty data records, all of type
`pt`, with no two adjacent ones contiguous. -/
theorem coalesceGoS_fix (pt : Int) (hpt : pt = 1 ∨ pt = 2 ∨ pt = 3) (l : List HexRec) :
    (NoEmptyDataS l → List.Chain' SepS l → DataTyped pt l → coalesceGo pt none l = l) ∧
    (∀ run : Run, NoEmptyDataS l → List.Chain' SepS l → DataTyped pt l → RunInvS run →
      run.buf ≠ [] →
      (∀ b, l.head? = some b → SepS (mkDataS pt run) b) →
      coalesceGo pt (some run) l = mkDataS pt run :: l) := by
  have hmkd : ∀ run : Run, isDataRec (mkDataS pt run) := by
    intro run
    simpa [isDataRec, mkDataS] using hpt
  induction l with
  | nil =>
    constructor
    · intro _ _ _
      rfl
    · intro run _ _ _ _ hbuf _
      simp [coalesceGo, List.length_pos_iff_ne_nil.mpr hbuf, mkDataS]
  | cons r rs ih =>
    constructor
    · intro hne hch hdty
      rw [NoEmptyDataS_cons] at hne
      rw [List.chain'_cons'] at hch
      rw [DataTyped_cons] at hdty
      by_cases hd : r.RecordType = 1 ∨ r.RecordType = 2 ∨ r.RecordType = 3
      · rw [show coalesceGo pt none (r :: rs) =
          coalesceGo pt (some ⟨r.Address, (r.Address + r.Data.length) % 4294967296, r.Data⟩) rs
          from by simp [coalesceGo, hd]]
        have hmk : mkDataS pt
            ⟨r.Address, (r.Address + r.Data.length) % 4294967296, r.Data⟩ = r := by
          simp only [mkDataS]
          have hrt := hdty.1 hd
          cases r with
          | mk a t dta =>
            simp only at hrt
            simp [hrt]
        rw [ih.2 ⟨r.Address, (r.Address + r.Data.length) % 4294967296, r.Data⟩ hne.2 hch.2
          hdty.2 rfl (hne.1 hd) (fun b hb => by rw [hmk]; exact hch.1 b hb)]
        rw [hmk]
      · rw [show coalesceGo pt none (r :: rs) = r :: coalesceGo pt none rs from by
          simp [coalesceGo, hd]]
        rw [ih.1 hne.2 hch.2 hdty.2]
    · intro run hne hch hdty hinv hbuf hsep
      rw [NoEmptyDataS_cons] at hne
      rw [List.chain'_cons'] at hch
      rw [DataTyped_cons] at hdty
      by_cases hd : r.RecordType = 1 ∨ r.RecordType = 2 ∨ r.RecordType = 3
      · have hnc : r.Address ≠ run.counter := by
          have := hsep r rfl (hmkd run) hd
          intro h
          apply this
          rw [h, hinv]
          rfl
        rw [show coalesceGo pt (some run) (r :: rs) = mkDataS pt run ::
            coalesceGo pt (some ⟨r.Address, (r.Address + r.Data.length) % 4294967296,
              r.Data⟩) rs from by simp [coalesceGo, hd, hnc, mkDataS]]
        have hmk : mkDataS pt
            ⟨r.Address, (r.Address + r.Data.length) % 4294967296, r.Data⟩ = r := by
          simp only [mkDataS]
          have hrt := hdty.1 hd
          cases r with
          | mk a t dta =>
            simp only at hrt
            simp [hrt]
        rw [ih.2 ⟨r.Address, (r.Address + r.Data.length) % 4294967296, r.Data⟩ hne.2 hch.2
          hdty.2 rfl (hne.1 hd) (fun b hb => by rw [hmk]; exact hch.1 b hb)]
        rw [hmk]
      · rw [show coalesceGo pt (some run) (r :: rs) =
            mkDataS pt run :: r :: coalesceGo pt none rs from by
          simp [coalesceGo, hd, List.length_pos_iff_ne_nil.mpr hbuf, mkDataS]]
        rw [ih.1 hne.2 hch.2 hdty.2]

theorem preferredType_mem (l : List HexRec) :
    preferredType l = 1 ∨ preferredType l = 2 ∨ preferredType l = 3 := by
  unfold preferredType
  split_ifs <;> simp

/-- On a sequence whose data records all have type `pt`, the survey pass
recomputes `pt` as the preferred type, provided at least one data record is
present. -/
theorem preferredType_eq (pt : Int) (hpt : pt = 1 ∨ pt = 2 ∨ pt = 3)
    (l : List HexRec) (hdty : DataTyped pt l)
    (r0 : HexRec) (hr0 : r0 ∈ l) (hd0 : isDataRec r0) :
    preferredType l = pt := by
  have hrt : r0.RecordType = pt := hdty r0 hr0 hd0
  have hno : ∀ t : Int, t ≠ pt → (t = 1 ∨ t = 2 ∨ t = 3) →
      (l.any (fun r => r.RecordType = t)) = false := by
    intro t ht htmem
    cases hb : l.any (fun r => r.RecordType = t) with
    | false => rfl
    | true =>
      simp only [List.any_eq_true, decide_eq_true_eq] at hb
      obtain ⟨x, hxm, hxt⟩ := hb
      have hxd : isDataRec x := by
        rcases htmem with h | h | h
        · subst h; exact Or.inl hxt
        · subst h; exact Or.inr (Or.inl hxt)
        · subst h; exact Or.inr (Or.inr hxt)
      have hx : x.RecordType = pt := hdty x hxm hxd
      rw [hxt] at hx
      exact absurd hx ht
  rcases hpt with h | h | h
  · subst h
    simp [preferredType, hno 3 (by decide) (by decide), hno 2 (by decide) (by decide)]
  · subst h
    have h2 : l.any (fun r => r.RecordType = 2) = true := by
      simp only [List.any_eq_true, decide_eq_true_eq]
      exact ⟨r0, hr0, hrt⟩
    simp [preferredType, hno 3 (by decide) (by decide), h2]
  · subst h
    have h3 : l.any (fun r => r.RecordType = 3) = true := by
      simp only [List.any_eq_true, decide_eq_true_eq]
      exact ⟨r0, hr0, hrt⟩
    simp [preferredType, h3]

/-- Idempotence of the srec `CoalesceDataRecs` on sequences whose data
records all have non-empty payloads: the second pass surveys the same
preferred type and passes the first pass's output through unchanged. -/
theorem coalesce_idem_srec (m : List HexRec) (h : NoEmptyDataS m) :
    CoalesceDataRecs (CoalesceDataRecs m) = CoalesceDataRecs m := by
  have hpt := preferredType_mem m
  have hout := (coalesceGoS_out (preferredType m) m).1 h
  show coalesceGo (preferredType (coalesceGo (preferredType m) none m)) none
      (coalesceGo (preferredType m) none m) = coalesceGo (preferredType m) none m
  by_cases hex : ∃ r, r ∈ coalesceGo (preferredType m) none m ∧ isDataRec r
  · obtain ⟨r0, hr0, hd0⟩ := hex
    rw [preferredType_eq (preferredType m) hpt _ hout.2.2 r0 hr0 hd0]
    exact (coalesceGoS_fix (preferredType m) hpt _).1 hout.1 hout.2.1 hout.2.2
  · have hdty : DataTyped (preferredType (coalesceGo (preferredType m) none m))
        (coalesceGo (preferredType m) none m) := by
      intro r hr hd
      exact absurd ⟨r, hr, hd⟩ hex
    exact (coalesceGoS_fix _ (preferredType_mem _) _).1 hout.1 hout.2.1 hdty

end srec

theorem getD_set_self {α : Type} (l : List α) (k : Nat) (x d : α) (h : k < l.length) :
    (l.set k x).getD k d = x := by
  induction l generalizing k with
  | nil => simp at h
  | cons a t ih =>
    cases k with
    | zero => rfl
    | succ j =>
      simp only [List.set_cons_succ, List.getD_cons_succ]
      exact ih j (by simpa using h)

theorem getD_set_ne {α : Type} (l : List α) (k j : Nat) (x d : α) (h : k ≠ j) :
    (l.set k x).getD j d = l.getD j d := by
  induction l generalizing k j with
  | nil => simp [List.getD]
  | cons a t ih =>
    cases k with
    | zero =>
      cases j with
      | zero => exact absurd rfl h
      | succ i => rfl
    | succ m =>
      cases j with
      | zero => rfl
      | succ i =>
        simp only [List.set_cons_succ, List.getD_cons_succ]
        exact ih m i (fun e => h (by rw [e]))

theorem take_set_lt {α : Type} (l : List α) (k m : Nat) (x : α) (h : k < m) :
    (l.set k x).take m = (l.take m).set k x := by
  induction l generalizing k m with
  | nil => simp
  | cons a t ih =>
    cases k with
    | zero =>
      cases m with
      | zero => simp at h
      | succ n => simp
    | succ j =>
      cases m with
      | zero => simp at h
      | succ n =>
        simp only [List.set_cons_succ, List.take_succ_cons]
        rw [ih j n (by omega)]

theorem take_set_ge {α : Type} (l : List α) (k m : Nat) (x : α) (h : m ≤ k) :
    (l.set k x).take m = l.take m := by
  induction l generalizing k m with
  | nil => simp
  | cons a t ih =>
    cases k with
    | zero =>
      cases m with
      | zero => rfl
      | succ n => simp at h
    | succ j =>
      cases m with
      | zero => rfl
      | succ n =>
        simp only [List.set_cons_succ, List.take_succ_cons]
        rw [ih j n (by omega)]

theorem getD_take_lt {α : Type} (l : List α) (j m : Nat) (d : α) (h : j < m) :
    (l.take m).getD j d = l.getD j d := by
  induction l generalizing j m with
  | nil => simp
  | cons a t ih =>
    cases m with
    | zero => simp at h
    | succ n =>
      cases j with
      | zero => rfl
      | succ i =>
        simp only [List.take_succ_cons, List.getD_cons_succ]
        exact ih i n (by omega)

theorem sum_set (l : List Nat) (k : Nat) (x : Nat) (h : k < l.length) :
    (l.set k x).sum + l.getD k 0 = l.sum + x := by
  induction l generalizing k with
  | nil => simp at h
  | cons a t ih =>
    cases k with
    | zero =>
      simp only [List.set_cons_zero, List.sum_cons, List.getD_cons_zero]
      omega
    | succ j =>
      simp only [List.set_cons_succ, List.sum_cons, List.getD_cons_succ]
      have := ih j (by simpa using h)
      omega

theorem hexVal_lt {c : Char} {v : Nat} (h : hexVal c = some v) : v < 16 := by
  unfold hexVal at h
  split_ifs at h <;> simp_all <;> omega

/-- Effect of replacing one character of a successfully hex-decoded string by
another hex digit: the decode still succeeds and the byte list changes only in
the byte containing the replaced nibble.  Also recovers the hex value of the
original character at that position from the decoded byte. -/
theorem hexDecode_set (bs : List Nat) :
    ∀ (cs : List Char), hexDecode cs = some bs →
    ∀ (j : Nat), j < cs.length → ∀ (c : Char) (v : Nat), hexVal c = some v →
    ∃ old, bs.getD (j / 2) 0 = old ∧ old < 256 ∧ j / 2 < bs.length ∧
      hexVal (cs.getD j ' ') = some (if j % 2 = 0 then old / 16 else old % 16) ∧
      hexDecode (cs.set j c) =
        some (bs.set (j / 2) (if j % 2 = 0 then v * 16 + old % 16 else old / 16 * 16 + v)) := by
  induction bs with
  | nil =>
    intro cs h j hj c v _
    match cs with
    | [] => simp at hj
    | [c1] => simp [hexDecode] at h
    | c1 :: c2 :: rest =>
      cases hv1 : hexVal c1 <;> cases hv2 : hexVal c2 <;> cases hr : hexDecode rest <;>
        simp [hexDecode, hv1, hv2, hr] at h
  | cons b tl ih =>
    intro cs h j hj c v hv
    match cs with
    | [] => simp [hexDecode] at h
    | [c1] => simp [hexDecode] at h
    | c1 :: c2 :: rest =>
      cases hv1 : hexVal c1 <;> cases hv2 : hexVal c2 <;> cases hr : hexDecode rest <;>
        simp [hexDecode, hv1, hv2, hr] at h
      rename_i h1 l1 tl'
      obtain ⟨hb, htl⟩ := h
      subst htl
      subst hb
      have hh1 : h1 < 16 := hexVal_lt hv1
      have hl1 : l1 < 16 := hexVal_lt hv2
      match j with
      | 0 =>
        refine ⟨h1 * 16 + l1, rfl, by omega, by simp, ?_, ?_⟩
        · simp only [List.getD_cons_zero, hv1, if_true, Option.some.injEq]
          omega
        · simp [hexDecode, hv, hv1, hv2, hr] <;> omega
      | 1 =>
        refine ⟨h1 * 16 + l1, rfl, by omega, by simp, ?_, ?_⟩
        · simp only [List.getD_cons_succ, List.getD_cons_zero, hv2, if_false,
            Option.some.injEq]
          split <;> omega
        · simp [hexDecode, hv, hv1, hv2, hr] <;> omega
      | j + 2 =>
        have hj' : j < rest.length := by
          simp only [List.length_cons] at hj
          omega
        obtain ⟨old, hold, holdlt, hklt, hvold, hdec⟩ := ih rest hr j hj' c v hv
        refine ⟨old, ?_, holdlt, ?_, ?_, ?_⟩
        · rw [show (j + 2) / 2 = j / 2 + 1 from by omega]
          simpa using hold
        · rw [show (j + 2) / 2 = j / 2 + 1 from by omega]
          simp only [List.length_cons]
          omega
        · rw [show (j + 2) % 2 = j % 2 from by omega]
          simpa using hvold
        · rw [show (j + 2) / 2 = j / 2 + 1 from by omega,
             show (j + 2) % 2 = j % 2 from by omega]
          simp only [List.set_cons_succ]
          simp [hexDecode, hv1, hv2, hdec]

/-- All bytes produced by `hexDecode` are below 256. -/
theorem hexDecode_bytes_lt (bs : List Nat) :
    ∀ (cs : List Char), hexDecode cs = some bs → ∀ b ∈ bs, b < 256 := by
  induction bs with
  | nil =>
    intro cs _ b hb
    cases hb
  | cons x tl ih =>
    intro cs h b hb
    match cs with
    | [] => simp [hexDecode] at h
    | [c1] => simp [hexDecode] at h
    | c1 :: c2 :: rest =>
      cases hv1 : hexVal c1 <;> cases hv2 : hexVal c2 <;> cases hr : hexDecode rest <;>
        simp [hexDecode, hv1, hv2, hr] at h
      rename_i h1 l1 tl'
      obtain ⟨hx, htl⟩ := h
      subst htl
      have hh1 : h1 < 16 := hexVal_lt hv1
      have hl1 : l1 < 16 := hexVal_lt hv2
      rcases List.mem_cons.mp hb with h1' | h2'
      · omega
      · exact ih rest hr b h2'

/-- Two byte sums that differ by swapping one byte for a different byte below
256 yield different intel-family checksums. -/
theorem calcChecksum_ne_of_sum (s1 s2 a b : Nat) (hab : a ≠ b) (ha : a < 256)
    (hb : b < 256) (h : s1 + b = s2 + a) :
    (256 - s1 % 256) % 256 ≠ (256 - s2 % 256) % 256 := by
  omega

/-- Inversion of a successful intel-family decode: the line is non-empty, its
tail hex-decodes to a non-empty byte image whose last byte equals the computed
checksum of the rest. -/
theorem ihex.decode_ok_shape {s : Line} {rec : ihex.HexRec}
    (h : ihex.decodeRecord s = .ok rec) :
    ∃ m rest b, s = m :: rest ∧ hexDecode rest = some b ∧ b.length ≠ 0 ∧
      b.getD (b.length - 1) 0 = ihex.calcChecksum (b.take (b.length - 1)) := by
  cases s with
  | nil => simp [ihex.decodeRecord] at h
  | cons m rest =>
    simp only [ihex.decodeRecord, ihex.decodeAfterMarker] at h
    cases hb : hexDecode rest with
    | none => rw [hb] at h; simp at h
    | some b =>
      rw [hb] at h
      simp only [ihex.decodeBinary] at h
      split_ifs at h with h1 h2
      exact ⟨m, rest, b, rfl, hb, h1, not_not.mp h2⟩

/-- The address-width-specific decode tail never produces the unknown-type
error, and every record it produces carries the dispatched record type. -/
theorem srec.decodeTail_shape (r : Line) (aEnd ovhd : Nat) (recTyp : Int) :
    srec.decodeTail r aEnd ovhd recTyp = .crash ∨
    (∃ e, e ≠ srec.DecErr.unknownType ∧ srec.decodeTail r aEnd ovhd recTyp = .err e) ∨
    (∃ rec, rec.RecordType = recTyp ∧ srec.decodeTail r aEnd ovhd recTyp = .ok rec) := by
  simp only [srec.decodeTail]
  repeat' split
  all_goals first
    | exact Or.inl rfl
    | exact Or.inr (Or.inl ⟨_, by decide, rfl⟩)
    | exact Or.inr (Or.inr ⟨_, rfl, rfl⟩)

theorem drop_set_lt {α : Type} (l : List α) (k m : Nat) (x : α) (h : k < m) :
    (l.set k x).drop m = l.drop m := by
  induction l generalizing k m with
  | nil => simp
  | cons a t ih =>
    cases k with
    | zero =>
      cases m with
      | zero => simp at h
      | succ n => simp
    | succ j =>
      cases m with
      | zero => simp at h
      | succ n =>
        simp only [List.set_cons_succ, List.drop_succ_cons]
        exact ih j n (by omega)

theorem drop_set_ge {α : Type} (l : List α) (k m : Nat) (x : α) (h : m ≤ k) :
    (l.set k x).drop m = (l.drop m).set (k - m) x := by
  induction l generalizing k m with
  | nil => simp
  | cons a t ih =>
    cases m with
    | zero => simp
    | succ n =>
      cases k with
      | zero => simp at h
      | succ j =>
        simp only [List.set_cons_succ, List.drop_succ_cons]
        rw [show j + 1 - (n + 1) = j - n from by omega]
        exact ih j n (by omega)

theorem getD_drop {α : Type} (l : List α) (m j : Nat) (d : α) :
    (l.drop m).getD j d = l.getD (m + j) d := by
  induction l generalizing m with
  | nil => simp
  | cons a t ih =>
    cases m with
    | zero => simp
    | succ n =>
      simp only [List.drop_succ_cons]
      rw [show n + 1 + j = (n + j) + 1 from by omega, List.getD_cons_succ]
      exact ih n

/-- Two byte sums that differ by swapping one byte for a different byte below
256 yield different srec-family checksums. -/
theorem srecChecksum_ne_of_sum (s1 s2 a b : Nat) (hab : a ≠ b) (ha : a < 256)
    (hb : b < 256) (h : s1 + b = s2 + a) :
    255 - s1 % 256 ≠ 255 - s2 % 256 := by
  omega

/-- Forward evaluation of `ParseUint` on a two-hex-digit string. -/
theorem parseUintHex_two (x y : Char) (dx dy : Nat) (hx : hexVal x = some dx)
    (hy : hexVal y = some dy) :
    parseUintHex [x, y] 8 = some (dx * 16 + dy) := by
  have hdx := hexVal_lt hx
  have hdy := hexVal_lt hy
  simp [parseUintHex, parseHexAcc, hx, hy]
  omega

/-- Inversion of `ParseUint` on a two-character checksum field. -/
theorem parseUintHex_two_inv {ch : List Char} {cs : Nat} (hlen : ch.length = 2)
    (h : parseUintHex ch 8 = some cs) :
    ∃ x y dx dy, ch = [x, y] ∧ hexVal x = some dx ∧ hexVal y = some dy ∧
      dx < 16 ∧ dy < 16 ∧ cs = dx * 16 + dy := by
  match ch, hlen with
  | [x, y], _ =>
    rcases hx : hexVal x with _ | dx
    · simp [parseUintHex, parseHexAcc, hx] at h
    rcases hy : hexVal y with _ | dy
    · simp [parseUintHex, parseHexAcc, hx, hy] at h
    have hdx := hexVal_lt hx
    have hdy := hexVal_lt hy
    simp [parseUintHex, parseHexAcc, hx, hy] at h
    exact ⟨x, y, dx, dy, rfl, hx, hy, hdx, hdy, by omega⟩

/-- A successful wrapped srec decode comes from a successful raw decode. -/
theorem srec.decode_ok_raw {r : Line} {rec : srec.HexRec}
    (h : srec.decodeRecord r = .ok rec) : srec.decodeRecordRaw r = .ok rec := by
  unfold srec.decodeRecord at h
  cases hr : srec.decodeRecordRaw r with
  | ok rec2 =>
    rw [hr] at h
    simp at h
    rw [h]
  | err e =>
    rw [hr] at h
    simp at h
  | crash =>
    rw [hr] at h
    simp at h

/-- The branch a line is dispatched to depends only on its first two
characters: every line with the same two-character prefix (and the minimum
length) is decoded by `decodeTail` with the same address-end index and
overhead. -/
theorem srec.decode_raw_branch (r : Line) (h4 : ¬ r.length < 4) :
    ∃ aEnd ovhd : Nat, (aEnd = 8 ∨ aEnd = 10 ∨ aEnd = 12) ∧
      ∀ s : Line, ¬ s.length < 4 → s.take 2 = r.take 2 →
        srec.decodeRecordRaw s =
          srec.decodeTail s aEnd ovhd (srec.srecTypeMap (r.take 2)) := by
  by_cases c1 : srec.srecTypeMap (r.take 2) = 0 ∨ srec.srecTypeMap (r.take 2) = 1 ∨
      srec.srecTypeMap (r.take 2) = 5 ∨ srec.srecTypeMap (r.take 2) = 9
  · refine ⟨8, 3, Or.inl rfl, ?_⟩
    intro s hs4 hst
    simp only [srec.decodeRecordRaw]
    rw [if_neg hs4, hst, if_pos c1]
  · by_cases c2 : srec.srecTypeMap (r.take 2) = 2 ∨ srec.srecTypeMap (r.take 2) = 6 ∨
        srec.srecTypeMap (r.take 2) = 8
    · refine ⟨10, 4, Or.inr (Or.inl rfl), ?_⟩
      intro s hs4 hst
      simp only [srec.decodeRecordRaw]
      rw [if_neg hs4, hst, if_neg c1, if_pos c2]
    · by_cases c3 : srec.srecTypeMap (r.take 2) = 3 ∨ srec.srecTypeMap (r.take 2) = 7
      · refine ⟨12, 5, Or.inr (Or.inr rfl), ?_⟩
        intro s hs4 hst
        simp only [srec.decodeRecordRaw]
        rw [if_neg hs4, hst, if_neg c1, if_neg c2, if_pos c3]
      · exfalso
        have hall : srec.srecTypeMap (r.take 2) = 0 ∨ srec.srecTypeMap (r.take 2) = 1 ∨
            srec.srecTypeMap (r.take 2) = 2 ∨ srec.srecTypeMap (r.take 2) = 3 ∨
            srec.srecTypeMap (r.take 2) = 5 ∨ srec.srecTypeMap (r.take 2) = 6 ∨
            srec.srecTypeMap (r.take 2) = 7 ∨ srec.srecTypeMap (r.take 2) = 8 ∨
            srec.srecTypeMap (r.take 2) = 9 := by
          unfold srec.srecTypeMap
          split_ifs <;> simp
        rcases hall with h | h | h | h | h | h | h | h | h <;> simp_all

/-- Inversion of a successful `decodeTail`: the length guards pass and the
stored two-character checksum field parses to exactly the checksum computed
over the `r[2:len-4]` region. -/
theorem srec.decodeTail_ok_inv {r : Line} {aEnd ovhd : Nat} {recTyp : Int}
    {rec : srec.HexRec} (h : srec.decodeTail r aEnd ovhd recTyp = .ok rec) :
    ∃ cs, ¬ r.length < aEnd ∧ ¬ (r.drop aEnd).length < 2 ∧
      parseUintHex ((r.drop aEnd).drop ((r.drop aEnd).length - 2)) 8 = some cs ∧
      srec.calcChecksumHexAscii ((r.drop 2).take (r.length - 4)) = some cs := by
  simp only [srec.decodeTail] at h
  split_ifs at h with h1 h2
  split at h
  · simp at h
  · rename_i cs hcs
    split at h
    · simp at h
    · rename_i csCalc hcc
      split_ifs at h with h3
      exact ⟨cs, h1, h2, hcs, by rw [hcc, not_not.mp h3]⟩

/-- Replacing any single character of a successfully `decodeTail`-decoded
line at a position past the two-character type field by a hex digit of a
different value makes the decode fail with the checksum-mismatch error:
either the checksummed region `r[2:len-2]` changes (one byte of its binary
image changes, so the computed checksum moves) or the stored two-character
checksum field changes (its parsed value moves), while the other side stays
fixed. -/
theorem srec.decodeTail_set (r : Line) (aEnd ovhd : Nat) (recTyp : Int)
    (rec : srec.HexRec) (hok : srec.decodeTail r aEnd ovhd recTyp = .ok rec)
    (haE : 4 ≤ aEnd) (i : Nat) (c : Char) (v : Nat) (hi2 : 2 ≤ i)
    (hin : i < r.length) (hv : hexVal c = some v)
    (hne : hexVal c ≠ hexVal (r.getD i ' ')) :
    srec.decodeTail (r.set i c) aEnd ovhd recTyp = .err .checksumMismatch := by
  obtain ⟨cs, h1, h2, hcs, hcc⟩ := srec.decodeTail_ok_inv hok
  rw [List.length_drop] at h2
  have hnaE : aEnd + 2 ≤ r.length := by omega
  have hg2 : ¬ r.length - aEnd < 2 := by omega
  have hchk : parseUintHex (r.drop (r.length - 2)) 8 = some cs := by
    rw [List.length_drop, List.drop_drop] at hcs
    have h12 : r.length - aEnd - 2 + aEnd = r.length - 2 := by omega
    have h21 : aEnd + (r.length - aEnd - 2) = r.length - 2 := by omega
    first
    | (rw [h12] at hcs; exact hcs)
    | (rw [h21] at hcs; exact hcs)
  have hchklen : (r.drop (r.length - 2)).length = 2 := by
    rw [List.length_drop]
    omega
  have hBex : ∃ B, hexDecode ((r.drop 2).take (r.length - 4)) = some B ∧
      srec.calcChecksum B = cs := by
    unfold srec.calcChecksumHexAscii at hcc
    cases hB : hexDecode ((r.drop 2).take (r.length - 4)) with
    | none => rw [hB] at hcc; simp at hcc
    | some B =>
      rw [hB] at hcc
      simp at hcc
      exact ⟨B, rfl, hcc⟩
  obtain ⟨B, hB, hBcs⟩ := hBex
  have hcsdlen : ((r.drop 2).take (r.length - 4)).length = r.length - 4 := by
    rw [List.length_take, List.length_drop]
    omega
  by_cases hcase : i < r.length - 2
  · -- the change falls inside the checksummed region r[2:len-2)
    have hi24 : i - 2 < r.length - 4 := by omega
    have hcsData2 : ((r.set i c).drop 2).take (r.length - 4) =
        ((r.drop 2).take (r.length - 4)).set (i - 2) c := by
      rw [drop_set_ge r i 2 c hi2, take_set_lt _ _ _ _ hi24]
    obtain ⟨old, hold, holdlt, hklt, hvold, hdec⟩ :=
      hexDecode_set B ((r.drop 2).take (r.length - 4)) hB (i - 2)
        (by rw [hcsdlen]; exact hi24) c v hv
    have hgetD : ((r.drop 2).take (r.length - 4)).getD (i - 2) ' ' = r.getD i ' ' := by
      rw [getD_take_lt _ _ _ _ hi24, getD_drop, show 2 + (i - 2) = i from by omega]
    rw [hgetD] at hvold
    have hvnib : v ≠ (if (i - 2) % 2 = 0 then old / 16 else old % 16) := by
      intro e
      apply hne
      rw [hv, hvold, e]
    have hvlt : v < 16 := hexVal_lt hv
    set nb := (if (i - 2) % 2 = 0 then v * 16 + old % 16 else old / 16 * 16 + v) with hnbdef
    have hnb_lt : nb < 256 := by
      rw [hnbdef]
      by_cases hp : (i - 2) % 2 = 0 <;> simp [hp] <;> omega
    have hnb_ne : nb ≠ old := by
      by_cases hp : (i - 2) % 2 = 0
      · rw [hnbdef]
        simp only [hp, if_true]
        simp only [hp, if_true] at hvnib
        omega
      · rw [hnbdef]
        simp only [hp, if_false]
        simp only [hp, if_false] at hvnib
        omega
    have hsum := sum_set B ((i - 2) / 2) nb hklt
    rw [hold] at hsum
    have hcalcne : srec.calcChecksum (B.set ((i - 2) / 2) nb) ≠ cs := by
      rw [← hBcs]
      unfold srec.calcChecksum
      exact srecChecksum_ne_of_sum _ _ nb old hnb_ne hnb_lt holdlt hsum
    have hcc2 : srec.calcChecksumHexAscii (((r.set i c).drop 2).take (r.length - 4)) =
        some (srec.calcChecksum (B.set ((i - 2) / 2) nb)) := by
      unfold srec.calcChecksumHexAscii
      rw [hcsData2, hdec]
      rfl
    have hchk2 : ((r.set i c).drop aEnd).drop (r.length - aEnd - 2) =
        r.drop (r.length - 2) := by
      rw [List.drop_drop]
      have h' : ∀ A : Nat, A = r.length - 2 →
          (r.set i c).drop A = r.drop (r.length - 2) := by
        rintro A rfl
        exact drop_set_lt r i (r.length - 2) c hcase
      exact h' _ (by omega)
    simp only [srec.decodeTail, List.length_set, List.length_drop]
    rw [if_neg h1, if_neg hg2, hchk2, hchk]
    simp [hcc2, Ne.symm hcalcne]
  · -- the change falls in the stored two-character checksum field
    have hige : r.length - 2 ≤ i := by omega
    have hcsData2 : ((r.set i c).drop 2).take (r.length - 4) =
        (r.drop 2).take (r.length - 4) := by
      rw [drop_set_ge r i 2 c hi2, take_set_ge _ _ _ _ (by omega : r.length - 4 ≤ i - 2)]
    have hchk2 : ((r.set i c).drop aEnd).drop (r.length - aEnd - 2) =
        (r.drop (r.length - 2)).set (i - (r.length - 2)) c := by
      rw [List.drop_drop]
      have h' : ∀ A : Nat, A = r.length - 2 →
          (r.set i c).drop A = (r.drop (r.length - 2)).set (i - (r.length - 2)) c := by
        rintro A rfl
        exact drop_set_ge r i (r.length - 2) c hige
      exact h' _ (by omega)
    obtain ⟨x, y, dx, dy, hxy, hx, hy, hdx, hdy, hcsval⟩ :=
      parseUintHex_two_inv hchklen hchk
    have hj0 : i - (r.length - 2) = 0 ∨ i - (r.length - 2) = 1 := by omega
    have hgetD : r.getD i ' ' = (r.drop (r.length - 2)).getD (i - (r.length - 2)) ' ' := by
      rw [getD_drop, show r.length - 2 + (i - (r.length - 2)) = i from by omega]
    have hvlt : v < 16 := hexVal_lt hv
    rcases hj0 with hj0 | hj0
    · have hxi : r.getD i ' ' = x := by
        rw [hgetD, hj0, hxy]
        rfl
      have hvdx : v ≠ dx := by
        intro e
        apply hne
        rw [hv, hxi, hx, e]
      have hset2 : (r.drop (r.length - 2)).set (i - (r.length - 2)) c = [c, y] := by
        rw [hj0, hxy]
        rfl
      have hparse2 : parseUintHex ((r.drop (r.length - 2)).set (i - (r.length - 2)) c) 8 =
          some (v * 16 + dy) := by
        rw [hset2]
        exact parseUintHex_two c y v dy hv hy
      have hnewne : v * 16 + dy ≠ cs := by
        rw [hcsval]
        omega
      simp only [srec.decodeTail, List.length_set, List.length_drop]
      rw [if_neg h1, if_neg hg2, hchk2, hparse2]
      simp [hcsData2, hcc, hnewne]
    · have hyi : r.getD i ' ' = y := by
        rw [hgetD, hj0, hxy]
        rfl
      have hvdy : v ≠ dy := by
        intro e
        apply hne
        rw [hv, hyi, hy, e]
      have hset2 : (r.drop (r.length - 2)).set (i - (r.length - 2)) c = [x, c] := by
        rw [hj0, hxy]
        rfl
      have hparse2 : parseUintHex ((r.drop (r.length - 2)).set (i - (r.length - 2)) c) 8 =
          some (dx * 16 + v) := by
        rw [hset2]
        exact parseUintHex_two x c dx v hx hv
      have hnewne : dx * 16 + v ≠ cs := by
        rw [hcsval]
        omega
      simp only [srec.decodeTail, List.length_set, List.length_drop]
      rw [if_neg h1, if_neg hg2, hchk2, hparse2]
      simp [hcsData2, hcc, hnewne]

/-- Claim C1, failing evaluation: the writer's `Addr32` data records declare a
length of `len(p) + 4`, but the decoder demands `len(p) + 5` for S3 records,
so the encode-decode-coalesce round trip of even a single byte fails with the
"byte-count error" instead of reproducing the payload — while the same
round trip at `Addr16` succeeds. -/
theorem C1_roundtrip_addr32_bug :
    srec.processRecords (srec.writeCloseLines .Addr32 [0]) =
      .error .byteCountMismatch ∧
    srec.processRecords (srec.writeCloseLines .Addr16 [0]) =
      .ok [⟨0, 1, [0]⟩] := by
  constructor
  · rfl
  · rfl

/-- Claim C2, counterexample: the two lines of the scenario decode to data
records at addresses `0x0000` and `0x0038` — not `0x001C` — which are not
contiguous (`0x0000 + 28 = 0x1C ≠ 0x38`), so coalescing does not produce a
single merged record. -/
theorem C2_not_one_record :
    srec.decodeRecord
        ("S11F00007C0802A6900100049421FFF07C6C1B787C8C23783C6000003863000026".data) =
      .ok ⟨0, 1, [0x7C, 0x08, 0x02, 0xA6, 0x90, 0x01, 0x00, 0x04, 0x94, 0x21, 0xFF,
        0xF0, 0x7C, 0x6C, 0x1B, 0x78, 0x7C, 0x8C, 0x23, 0x78, 0x3C, 0x60, 0x00,
        0x00, 0x38, 0x63, 0x00, 0x00]⟩ ∧
    srec.decodeRecord ("S111003848656C6C6F20776F726C642E0A0042".data) =
      .ok ⟨0x38, 1, [0x48, 0x65, 0x6C, 0x6C, 0x6F, 0x20, 0x77, 0x6F, 0x72, 0x6C,
        0x64, 0x2E, 0x0A, 0x00]⟩ ∧
    (srec.CoalesceDataRecs
        [⟨0, 1, [0x7C, 0x08, 0x02, 0xA6, 0x90, 0x01, 0x00, 0x04, 0x94, 0x21, 0xFF,
          0xF0, 0x7C, 0x6C, 0x1B, 0x78, 0x7C, 0x8C, 0x23, 0x78, 0x3C, 0x60, 0x00,
          0x00, 0x38, 0x63, 0x00, 0x00]⟩,
         ⟨0x38, 1, [0x48, 0x65, 0x6C, 0x6C, 0x6F, 0x20, 0x77, 0x6F, 0x72, 0x6C,
          0x64, 0x2E, 0x0A, 0x00]⟩]).length ≠ 1 := by
  refine ⟨rfl, rfl, ?_⟩
  decide

/-- Claim C2, amended: decoding the two lines yields data records at base
addresses `0x0000` (28 bytes) and `0x0038` (14 bytes), and coalescing returns
exactly these two records unchanged, because they are not contiguous. -/
theorem C2_two_records :
    srec.processRecords
        [("S11F00007C0802A6900100049421FFF07C6C1B787C8C23783C6000003863000026".data),
         ("S111003848656C6C6F20776F726C642E0A0042".data)] =
      .ok [⟨0, 1, [0x7C, 0x08, 0x02, 0xA6, 0x90, 0x01, 0x00, 0x04, 0x94, 0x21, 0xFF,
          0xF0, 0x7C, 0x6C, 0x1B, 0x78, 0x7C, 0x8C, 0x23, 0x78, 0x3C, 0x60, 0x00,
          0x00, 0x38, 0x63, 0x00, 0x00]⟩,
        ⟨0x38, 1, [0x48, 0x65, 0x6C, 0x6C, 0x6F, 0x20, 0x77, 0x6F, 0x72, 0x6C,
          0x64, 0x2E, 0x0A, 0x00]⟩] ∧
    srec.CoalesceDataRecs
        [⟨0, 1, [0x7C, 0x08, 0x02, 0xA6, 0x90, 0x01, 0x00, 0x04, 0x94, 0x21, 0xFF,
          0xF0, 0x7C, 0x6C, 0x1B, 0x78, 0x7C, 0x8C, 0x23, 0x78, 0x3C, 0x60, 0x00,
          0x00, 0x38, 0x63, 0x00, 0x00]⟩,
         ⟨0x38, 1, [0x48, 0x65, 0x6C, 0x6C, 0x6F, 0x20, 0x77, 0x6F, 0x72, 0x6C,
          0x64, 0x2E, 0x0A, 0x00]⟩] =
      [⟨0, 1, [0x7C, 0x08, 0x02, 0xA6, 0x90, 0x01, 0x00, 0x04, 0x94, 0x21, 0xFF,
          0xF0, 0x7C, 0x6C, 0x1B, 0x78, 0x7C, 0x8C, 0x23, 0x78, 0x3C, 0x60, 0x00,
          0x00, 0x38, 0x63, 0x00, 0x00]⟩,
       ⟨0x38, 1, [0x48, 0x65, 0x6C, 0x6C, 0x6F, 0x20, 0x77, 0x6F, 0x72, 0x6C,
          0x64, 0x2E, 0x0A, 0x00]⟩] := by
  constructor
  · rfl
  · rfl

/-- Claim C4, failing evaluation: the first `ReadFile` copy of `intel/read.go`
returns right after decoding the first non-empty line, so a one-line file with
a valid EOF record yields an empty record list (and no error), while the
second copy returns the decoded record as the claim describes. -/
theorem C4_readfile_v1_stops_early :
    ihex.ReadFile_v1 [(":00000001FF".data)] = .okL [] ∧
    ihex.ReadFile_v2 [(":00000001FF".data)] = .okL [⟨0, 1, []⟩] ∧
    ihex.ReadFile_v1 [(":00000001FF".data)] ≠ ihex.ReadFile_v2 [(":00000001FF".data)] := by
  refine ⟨rfl, rfl, ?_⟩
  decide

/-- Claim C9, counterexample: the intel-family `decodeRecord` panics (index
out of range on `b[len(b)-1]`) on the non-empty line `":"`, so decoding of
both families is not total on non-empty lines. -/
theorem C9_intel_decode_crashes :
    (":".data) ≠ ([] : Line) ∧ ihex.decodeRecord (":".data) = .crash := by
  constructor
  · decide
  · rfl

/-- Claim C9, amended: the srec-family `decodeRecord` is total — its deferred
`recover` turns every runtime panic of the body into an ordinary error, so it
never propagates a panic, on any input line. -/
theorem C9_srec_decode_total (r : Line) : srec.decodeRecord r ≠ .crash := by
  unfold srec.decodeRecord
  cases h : srec.decodeRecordRaw r <;> simp

/-- Claim C3, counterexample: the intel-family writer has no closed flag, so a
second `Close` neither fails nor stays silent — it returns no error and emits
another EOF record. -/
theorem C3_intel_close_unguarded :
    (ihex.Close (ihex.Close (ihex.NewWriterWidth 16)).2.1).1 = none ∧
    (ihex.Close (ihex.Close (ihex.NewWriterWidth 16)).2.1).2.2 =
      [(":00000001FF".data)] := by
  constructor
  · rfl
  · rfl

/-- Claim C3, amended: for the srec-family writer, a `Close` after any
previous `Close` returns the error "Writer already closed", leaves the state
unchanged and emits nothing; the intel-family writer has no such guard. -/
theorem C3_srec_close_guarded (w : srec.Writer) :
    srec.Close ((srec.Close w).2.1) =
      (some "Writer already closed", (srec.Close w).2.1, []) := by
  by_cases hf : w.fin
  · simp [srec.Close, hf]
  · simp [srec.Close, hf]

/-- Claim C6, counterexample: the `part_000` draft writer's `Flush` on an
empty holding buffer is not a no-op — it emits a zero-length Data record. -/
theorem C6_part0_flush_emits :
    (ihex0.Flush (ihex.NewWriterWidth 16)).2.2 = [(":0000000000".data)] ∧
    (ihex0.Flush (ihex.NewWriterWidth 16)).2.2 ≠ [] := by
  constructor
  · rfl
  · decide

/-- Claim C6, amended: for the intel-family writer of `intel/write.go` and the
srec-family writer, `Flush` on an empty holding buffer emits nothing, leaves
the writer unchanged and returns no error; the `part_000` draft instead emits
a zero-length Data record. -/
theorem C6_flush_empty_noop (w : ihex.Writer) (v : srec.Writer)
    (hw : w.fifo = []) (hv : v.buf = []) :
    ihex.Flush w = (none, w, []) ∧ srec.Flush v = (none, v, []) := by
  constructor
  · simp [ihex.Flush, hw]
  · simp [srec.Flush, hv]

/-- Witness for the amended claim C6 at concrete empty writers. -/
theorem C6_flush_empty_noop_witness :
    (ihex.NewWriterWidth 16).fifo = [] ∧ (srec.NewWriter .Addr16).buf = [] ∧
    (ihex.Flush (ihex.NewWriterWidth 16) = (none, ihex.NewWriterWidth 16, []) ∧
      srec.Flush (srec.NewWriter .Addr16) = (none, srec.NewWriter .Addr16, [])) :=
  ⟨rfl, rfl, C6_flush_empty_noop (ihex.NewWriterWidth 16) (srec.NewWriter .Addr16) rfl rfl⟩

/-- Claim C8, counterexample: in both families a single zero-length Data
record is not re-emitted by the coalescer — its run opens with an empty
buffer and the final guarded emission skips it, so the output is empty. -/
theorem C8_empty_single_dropped :
    ihex.CoalesceDataRecs [⟨0, ihex.DataTyp, []⟩] = [] ∧
    (ihex.CoalesceDataRecs [⟨0, ihex.DataTyp, []⟩]).length ≠ 1 ∧
    srec.CoalesceDataRecs [⟨0, srec.S1Data, []⟩] = [] ∧
    (srec.CoalesceDataRecs [⟨0, srec.S1Data, []⟩]).length ≠ 1 := by
  refine ⟨rfl, by decide, rfl, by decide⟩

/-- Claim C8, amended: in both families, a sequence consisting of exactly one
data record with a non-empty payload of at most 255 bytes coalesces to
exactly that record, with the same address, record type and payload (for the
srec family the survey makes the single record's own type the preferred
type); a zero-length data record is dropped instead. -/
theorem C8_single_nonempty_reemitted (a : Nat) (d : List Nat) (t : Int)
    (hd : d ≠ []) (hlen : d.length ≤ 255) (ht : t = 1 ∨ t = 2 ∨ t = 3) :
    ihex.CoalesceDataRecs [⟨a, ihex.DataTyp, d⟩] = [⟨a, ihex.DataTyp, d⟩] ∧
    srec.CoalesceDataRecs [⟨a, t, d⟩] = [⟨a, t, d⟩] := by
  constructor
  · simp [ihex.CoalesceDataRecs, ihex.coalesceGo, List.length_pos_iff_ne_nil.mpr hd]
  · rcases ht with h | h | h <;> subst h <;>
      simp [srec.CoalesceDataRecs, srec.preferredType, srec.coalesceGo,
        List.length_pos_iff_ne_nil.mpr hd]

/-- Witness for the amended claim C8 at concrete one-byte records. -/
theorem C8_single_nonempty_reemitted_witness :
    ([7] : List Nat) ≠ [] ∧ ([7] : List Nat).length ≤ 255 ∧
    ((2 : Int) = 1 ∨ (2 : Int) = 2 ∨ (2 : Int) = 3) ∧
    (ihex.CoalesceDataRecs [⟨3, ihex.DataTyp, [7]⟩] = [⟨3, ihex.DataTyp, [7]⟩] ∧
      srec.CoalesceDataRecs [⟨3, 2, [7]⟩] = [⟨3, 2, [7]⟩]) :=
  ⟨by decide, by decide, by decide,
    C8_single_nonempty_reemitted 3 [7] 2 (by decide) (by decide) (by decide)⟩

/-- Claim C7, counterexample: coalescing is not idempotent in either family —
on two non-contiguous zero-length data records the first pass emits one
zero-length record (the unguarded close of the first run) and the second
pass drops it. -/
theorem C7_not_idempotent_empty_data :
    ihex.CoalesceDataRecs (ihex.CoalesceDataRecs
        [⟨5, ihex.DataTyp, []⟩, ⟨9, ihex.DataTyp, []⟩]) ≠
      ihex.CoalesceDataRecs [⟨5, ihex.DataTyp, []⟩, ⟨9, ihex.DataTyp, []⟩] ∧
    srec.CoalesceDataRecs (srec.CoalesceDataRecs
        [⟨5, srec.S1Data, []⟩, ⟨9, srec.S1Data, []⟩]) ≠
      srec.CoalesceDataRecs [⟨5, srec.S1Data, []⟩, ⟨9, srec.S1Data, []⟩] := by
  refine ⟨by decide, by decide⟩

/-- Claim C7, amended: both families' coalescers are idempotent on every
record sequence in which every data record has a non-empty payload;
`coalesce (coalesce x) = coalesce x` then holds as list equality, record for
record.  For the srec family this includes the preferred-type survey: the
second pass recomputes the same preferred type from the first pass's jumbo
records.  Zero-length data records can be dropped unevenly across the two
passes, which is the only obstruction. -/
theorem C7_idempotent_no_empty_data (l : List ihex.HexRec) (m : List srec.HexRec)
    (h : ∀ r ∈ l, r.RecordType = ihex.DataTyp → r.Data ≠ [])
    (h2 : ∀ r ∈ m, (r.RecordType = srec.S1Data ∨ r.RecordType = srec.S2Data ∨
      r.RecordType = srec.S3Data) → r.Data ≠ []) :
    ihex.CoalesceDataRecs (ihex.CoalesceDataRecs l) = ihex.CoalesceDataRecs l ∧
    srec.CoalesceDataRecs (srec.CoalesceDataRecs m) = srec.CoalesceDataRecs m := by
  constructor
  · have hg := (ihex.coalesceGo_out l).1 h
    exact (ihex.coalesceGo_fix (ihex.coalesceGo none l)).1 hg.1 hg.2
  · exact srec.coalesce_idem_srec m h2

/-- Witness for the amended claim C7 on concrete mixed sequences of both
families. -/
theorem C7_idempotent_no_empty_data_witness :
    (∀ r ∈ [(⟨0, ihex.DataTyp, [1]⟩ : ihex.HexRec), ⟨1, ihex.DataTyp, [2]⟩,
        ⟨9, ihex.EndOfFileTyp, []⟩], r.RecordType = ihex.DataTyp → r.Data ≠ []) ∧
    (∀ r ∈ [(⟨0, srec.S1Data, [1]⟩ : srec.HexRec), ⟨1, srec.S3Data, [2]⟩,
        ⟨9, srec.S9Start, []⟩], (r.RecordType = srec.S1Data ∨
        r.RecordType = srec.S2Data ∨ r.RecordType = srec.S3Data) → r.Data ≠ []) ∧
    (ihex.CoalesceDataRecs (ihex.CoalesceDataRecs
        [⟨0, ihex.DataTyp, [1]⟩, ⟨1, ihex.DataTyp, [2]⟩, ⟨9, ihex.EndOfFileTyp, []⟩]) =
      ihex.CoalesceDataRecs
        [⟨0, ihex.DataTyp, [1]⟩, ⟨1, ihex.DataTyp, [2]⟩, ⟨9, ihex.EndOfFileTyp, []⟩] ∧
     srec.CoalesceDataRecs (srec.CoalesceDataRecs
        [⟨0, srec.S1Data, [1]⟩, ⟨1, srec.S3Data, [2]⟩, ⟨9, srec.S9Start, []⟩]) =
      srec.CoalesceDataRecs
        [⟨0, srec.S1Data, [1]⟩, ⟨1, srec.S3Data, [2]⟩, ⟨9, srec.S9Start, []⟩]) :=
  ⟨by decide, by decide, C7_idempotent_no_empty_data _ _ (by decide) (by decide)⟩

/-- Claim C10: a line whose first two characters are not one of the nine
defined S-record type strings is never rejected with "Unknown SREC type" —
the map lookup yields the zero value `S0Header` — and if it decodes at all it
decodes as a Header record. -/
theorem C10_unknown_type_unreachable (r : Line)
    (h : r.take 2 ∉ [("S0".data), ("S1".data), ("S2".data), ("S3".data),
      ("S5".data), ("S6".data), ("S7".data), ("S8".data), ("S9".data)]) :
    srec.decodeRecord r ≠ .err .unknownType ∧
    ∀ rec, srec.decodeRecord r = .ok rec → rec.RecordType = srec.S0Header := by
  have hmap : srec.srecTypeMap (r.take 2) = 0 := by
    unfold srec.srecTypeMap
    split_ifs with h0 h1 h2 h3 h5 h6 h7 h8 h9
    · rfl
    · exact absurd (by simp [h1]) h
    · exact absurd (by simp [h2]) h
    · exact absurd (by simp [h3]) h
    · exact absurd (by simp [h5]) h
    · exact absurd (by simp [h6]) h
    · exact absurd (by simp [h7]) h
    · exact absurd (by simp [h8]) h
    · exact absurd (by simp [h9]) h
    · rfl
  by_cases hlen : r.length < 4
  · have hraw : srec.decodeRecordRaw r = .crash := by
      unfold srec.decodeRecordRaw
      rw [if_pos hlen]
    constructor
    · simp [srec.decodeRecord, hraw]
    · intro rec hrec
      simp [srec.decodeRecord, hraw] at hrec
  · have hraw : srec.decodeRecordRaw r = srec.decodeTail r 8 3 0 := by
      simp [srec.decodeRecordRaw, hlen, hmap]
    rcases srec.decodeTail_shape r 8 3 0 with hc | ⟨e, he, herr⟩ | ⟨rec, hrt, hok⟩
    · constructor
      · simp [srec.decodeRecord, hraw, hc]
      · intro rec hrec
        simp [srec.decodeRecord, hraw, hc] at hrec
    · constructor
      · simp only [srec.decodeRecord, hraw, herr]
        intro hcontra
        exact he (by injection hcontra)
      · intro rec hrec
        simp [srec.decodeRecord, hraw, herr] at hrec
    · constructor
      · simp [srec.decodeRecord, hraw, hok]
      · intro rec' hrec
        simp only [srec.decodeRecord, hraw, hok] at hrec
        injection hrec with hrec
        rw [← hrec]
        exact hrt

/-- Witness for claim C10 at a concrete line with an undefined type prefix. -/
theorem C10_unknown_type_unreachable_witness :
    (("XX".data).take 2 ∉ [("S0".data), ("S1".data), ("S2".data), ("S3".data),
      ("S5".data), ("S6".data), ("S7".data), ("S8".data), ("S9".data)]) ∧
    (srec.decodeRecord ("XX".data) ≠ .err .unknownType ∧
      ∀ rec, srec.decodeRecord ("XX".data) = .ok rec →
        rec.RecordType = srec.S0Header) :=
  ⟨by decide, C10_unknown_type_unreachable ("XX".data) (by decide)⟩

/-- Claim C5, counterexample: neither decoder detects every single-byte
change by a checksum mismatch.  The intel-family decoder never validates the
leading marker character, so changing the first byte of a successfully
decoded line does not fail at all; the srec-family decoder leaves the
two-character type field outside the checksummed region, so flipping `S9` to
`S5` in a successfully decoded line also decodes successfully. -/
theorem C5_marker_change_undetected :
    ihex.decodeRecord (":00000001FF".data) = .ok ⟨0, 1, []⟩ ∧
    ihex.decodeRecord ("A00000001FF".data) = .ok ⟨0, 1, []⟩ ∧
    srec.decodeRecord ("S9030000FC".data) = .ok ⟨0, 9, []⟩ ∧
    srec.decodeRecord ("S5030000FC".data) = .ok ⟨0, 5, []⟩ := by
  refine ⟨rfl, rfl, rfl, rfl⟩

/-- Claim C5, amended, for both decoder families: for every line that decodes
successfully, replacing any single character past the format's unchecked
prefix — the one-character `:` marker for the intel family, the
two-character type field for the srec family — by a hexadecimal digit of a
different value makes decoding fail with the family's checksum-mismatch
error.  (A change inside the unchecked prefix can go entirely undetected and
a non-hex replacement fails with a hex-decode error instead, hence the
restrictions.) -/
theorem C5_hex_digit_change_checksum :
    (∀ (s : Line) (rec : ihex.HexRec), ihex.decodeRecord s = .ok rec →
      ∀ (i : Nat) (c : Char) (v : Nat), 1 ≤ i → i < s.length →
        hexVal c = some v → hexVal c ≠ hexVal (s.getD i ' ') →
        ihex.decodeRecord (s.set i c) = .err .checksum) ∧
    (∀ (r : Line) (rec : srec.HexRec), srec.decodeRecord r = .ok rec →
      ∀ (i : Nat) (c : Char) (v : Nat), 2 ≤ i → i < r.length →
        hexVal c = some v → hexVal c ≠ hexVal (r.getD i ' ') →
        srec.decodeRecord (r.set i c) = .err .checksumMismatch) := by
  constructor
  · intro s rec hok i c v hi1 hi2 hv hne
    obtain ⟨m, rest, b, hs, hb, hbne, hcs⟩ := ihex.decode_ok_shape hok
    subst hs
    obtain ⟨j, rfl⟩ : ∃ j, i = j + 1 := ⟨i - 1, by omega⟩
    have hj : j < rest.length := by
      simp only [List.length_cons] at hi2
      omega
    obtain ⟨old, hold, holdlt, hklt, hvold, hdec⟩ := hexDecode_set b rest hb j hj c v hv
    have hvlt : v < 16 := hexVal_lt hv
    have hvnib : v ≠ (if j % 2 = 0 then old / 16 else old % 16) := by
      intro e
      apply hne
      rw [hv, List.getD_cons_succ, hvold, e]
    set nb := (if j % 2 = 0 then v * 16 + old % 16 else old / 16 * 16 + v) with hnbdef
    have hnb_lt : nb < 256 := by
      rw [hnbdef]
      by_cases hp : j % 2 = 0 <;> simp [hp] <;> omega
    have hnb_ne : nb ≠ old := by
      by_cases hp : j % 2 = 0
      · rw [hnbdef]
        simp only [hp, if_true]
        simp only [hp, if_true] at hvnib
        omega
      · rw [hnbdef]
        simp only [hp, if_false]
        simp only [hp, if_false] at hvnib
        omega
    show ihex.decodeRecord ((m :: rest).set (j + 1) c) = .err .checksum
    rw [List.set_cons_succ]
    show ihex.decodeAfterMarker (rest.set j c) = .err .checksum
    unfold ihex.decodeAfterMarker
    rw [hdec]
    simp only [ihex.decodeBinary, List.length_set]
    rw [if_neg hbne]
    by_cases hkend : j / 2 = b.length - 1
    · have hcseq : (b.set (j / 2) nb).getD (b.length - 1) 0 = nb := by
        rw [← hkend]
        exact getD_set_self b (j / 2) nb 0 hklt
      have hbody : (b.set (j / 2) nb).take (b.length - 1) = b.take (b.length - 1) :=
        take_set_ge b (j / 2) (b.length - 1) nb (by omega)
      rw [if_pos ?_]
      rw [hcseq, hbody, ← hcs]
      rw [← hkend]
      rw [hold]
      exact hnb_ne
    · have hklt2 : j / 2 < b.length - 1 := by omega
      have hcseq : (b.set (j / 2) nb).getD (b.length - 1) 0 = b.getD (b.length - 1) 0 :=
        getD_set_ne b (j / 2) (b.length - 1) nb 0 hkend
      have hbody : (b.set (j / 2) nb).take (b.length - 1) =
          (b.take (b.length - 1)).set (j / 2) nb :=
        take_set_lt b (j / 2) (b.length - 1) nb hklt2
      have hbl : (b.take (b.length - 1)).length = b.length - 1 := by
        rw [List.length_take]
        omega
      have holdtake : (b.take (b.length - 1)).getD (j / 2) 0 = old := by
        rw [getD_take_lt b (j / 2) (b.length - 1) 0 hklt2]
        exact hold
      have hsum := sum_set (b.take (b.length - 1)) (j / 2) nb (by rw [hbl]; exact hklt2)
      rw [holdtake] at hsum
      have hcalcne : ihex.calcChecksum ((b.take (b.length - 1)).set (j / 2) nb) ≠
          ihex.calcChecksum (b.take (b.length - 1)) := by
        unfold ihex.calcChecksum
        exact calcChecksum_ne_of_sum ((b.take (b.length - 1)).set (j / 2) nb).sum
          (b.take (b.length - 1)).sum nb old hnb_ne hnb_lt holdlt hsum
      rw [if_pos ?_]
      rw [hcseq, hbody, hcs]
      exact hcalcne.symm
  · intro r rec hok i c v hi2 hin hv hne
    have hraw : srec.decodeRecordRaw r = .ok rec := srec.decode_ok_raw hok
    have h4 : ¬ r.length < 4 := by
      intro hlt
      unfold srec.decodeRecordRaw at hraw
      rw [if_pos hlt] at hraw
      simp at hraw
    obtain ⟨aEnd, ovhd, haE, hbr⟩ := srec.decode_raw_branch r h4
    have hok2 : srec.decodeTail r aEnd ovhd (srec.srecTypeMap (r.take 2)) = .ok rec := by
      rw [← hbr r h4 rfl]
      exact hraw
    have haE4 : 4 ≤ aEnd := by rcases haE with h | h | h <;> omega
    have hlen2 : ¬ (r.set i c).length < 4 := by
      rw [List.length_set]
      exact h4
    have htake : (r.set i c).take 2 = r.take 2 := take_set_ge r i 2 c hi2
    have htail := srec.decodeTail_set r aEnd ovhd (srec.srecTypeMap (r.take 2)) rec hok2
      haE4 i c v hi2 hin hv hne
    unfold srec.decodeRecord
    rw [hbr (r.set i c) hlen2 htake, htail]

/-- Witness for the amended claim C5: flipping one checksum digit of an EOF
record (intel) and of a start record (srec) triggers the respective
checksum-mismatch error. -/
theorem C5_hex_digit_change_checksum_witness :
    ihex.decodeRecord (":00000001FF".data) = .ok ⟨0, 1, []⟩ ∧
    srec.decodeRecord ("S9030000FC".data) = .ok ⟨0, 9, []⟩ ∧
    hexVal '0' = some 0 ∧
    hexVal '0' ≠ hexVal ((":00000001FF".data).getD 10 ' ') ∧
    hexVal '0' ≠ hexVal (("S9030000FC".data).getD 9 ' ') ∧
    ihex.decodeRecord ((":00000001FF".data).set 10 '0') = .err .checksum ∧
    srec.decodeRecord (("S9030000FC".data).set 9 '0') = .err .checksumMismatch :=
  ⟨by decide, by decide, by decide, by decide, by decide,
    C5_hex_digit_change_checksum.1 (":00000001FF".data) ⟨0, 1, []⟩ (by decide) 10 '0' 0
      (by decide) (by decide) (by decide) (by decide),
    C5_hex_digit_change_checksum.2 ("S9030000FC".data) ⟨0, 9, []⟩ (by decide) 9 '0' 0
      (by decide) (by decide) (by decide) (by decide)⟩
